import Mathlib

/-!
Verification of the transaction-signing session protocol of the
ledgerjs-hw-app-ergo driver (src/interactions/signTx.ts, src/erg.ts).

The TypeScript driver is shallowly embedded: byte buffers are lists of
naturals, device traffic is a trace of commands, and the device itself is
an oracle mapping the index of a call to the response returned for it.
Driver functions are state-passing computations accumulating the trace and
possibly stopping with an error, exactly as the TypeScript code stops on a
thrown exception.
-/

namespace ErgoLedger

/-! ## Binary codec (serialization layer)

Modelled from the spec: the serialization module (src/serialization) is not
part of the sources at hand; it is reconstructed here from spec section 4.1:
fixed-width big-endian integers, a path encoded as one leading length byte
followed by each component as a 32-bit integer, and a reversible
lowercase hex codec. -/

namespace Serialize

/-- Modelled from the spec: 8-bit big-endian encoder. -/
def uint8 (n : Nat) : List Nat := [n % 256]

/-- Modelled from the spec: 16-bit big-endian encoder. -/
def uint16 (n : Nat) : List Nat := [n / 2 ^ 8 % 256, n % 256]

/-- Modelled from the spec: 32-bit big-endian encoder. -/
def uint32 (n : Nat) : List Nat :=
  [n / 2 ^ 24 % 256, n / 2 ^ 16 % 256, n / 2 ^ 8 % 256, n % 256]

/-- Modelled from the spec: 64-bit big-endian encoder. -/
def uint64 (n : Nat) : List Nat :=
  [n / 2 ^ 56 % 256, n / 2 ^ 48 % 256, n / 2 ^ 40 % 256, n / 2 ^ 32 % 256,
   n / 2 ^ 24 % 256, n / 2 ^ 16 % 256, n / 2 ^ 8 % 256, n % 256]

/-- Modelled from the spec: BIP32 path encoding, a fixed leading length byte
followed by each (already hardened) component as a 32-bit integer. A path is
represented by its list of numeric components. -/
def bip32Path (p : List Nat) : List Nat :=
  uint8 p.length ++ (p.map uint32).flatten

/-- Value of one hex digit character, case-insensitive (spec 4.1). -/
def hexDigitVal (c : Char) : Nat :=
  if 48 ≤ c.toNat ∧ c.toNat ≤ 57 then c.toNat - 48
  else if 97 ≤ c.toNat ∧ c.toNat ≤ 102 then c.toNat - 87
  else if 65 ≤ c.toNat ∧ c.toNat ≤ 70 then c.toNat - 55
  else 0

/-- Decode consecutive pairs of hex digits into bytes. -/
def hexPairsToBytes : List Char → List Nat
  | c1 :: c2 :: rest => (hexDigitVal c1 * 16 + hexDigitVal c2) :: hexPairsToBytes rest
  | _ => []

/-- Modelled from the spec: hex decoding of a string into bytes
(Serialize.hex in the missing serialization module). -/
def hex (s : String) : List Nat := hexPairsToBytes s.data

end Serialize

/-- Lowercase hex digit for a value below 16. -/
def hexDigitChar (n : Nat) : Char :=
  if n < 10 then Char.ofNat (48 + n) else Char.ofNat (87 + n)

/-- Hex digits of one byte, lowercase. -/
def byteToHex (b : Nat) : List Char :=
  [hexDigitChar (b % 256 / 16), hexDigitChar (b % 16)]

namespace Deserialize

/-- Modelled from the spec: lowercase hex encoding of a byte buffer
(Deserialize.hex in the missing serialization module; also the behavior of
Buffer.toString applied with hex). -/
def hex (bs : List Nat) : String := ⟨(bs.map byteToHex).flatten⟩

end Deserialize

/-! ## Packetizer -/

/-- Structural worker of the list chunker: the fuel bounds the recursion
depth and is never exhausted when it starts at the length of the list. -/
def chunkListF (n : Nat) : Nat → List α → List (List α)
  | _, [] => []
  | 0, _ :: _ => []
  | fuel + 1, x :: xs => (x :: xs.take (n - 1)) :: chunkListF n fuel (xs.drop (n - 1))

/-- Split a list into consecutive batches of at most n elements.
Modelled from the spec (4.2, count-bounded list chunking): the chunking
primitive lives in the missing serialization module. -/
def chunkList (n : Nat) (l : List α) : List (List α) := chunkListF n l.length l

namespace Serialize

/-- Modelled from the spec: Serialize.arrayAndChunk groups items into batches
of at most maxSize items and concatenates each batch of encoded items into
one packet. -/
def arrayAndChunk (items : List α) (maxSize : Nat) (f : α → List Nat) : List (List Nat) :=
  (chunkList maxSize items).map (fun batch => (batch.map f).flatten)

/-- Modelled from the spec: Serialize.array concatenates the per-item
encodings in order. -/
def array (items : List α) (f : α → List Nat) : List Nat :=
  (items.map f).flatten

end Serialize

/-! ## Data model (src/types/public) -/

/-- A token reference inside an output candidate: a hex token id and an
amount. -/
structure Token where
  id : String
  amount : Nat
deriving DecidableEq, Repr

/-- An output candidate of the transaction (BoxCandidate). Byte buffers are
lists of naturals. -/
structure BoxCandidate where
  value : Nat
  ergoTree : List Nat
  creationHeight : Nat
  tokens : List Token
  registers : List Nat
deriving DecidableEq, Repr

/-- The change descriptor: an address string and the derivation path that
produced it (ChangeMap). The path is optional in the signing code, which
throws when it is missing. -/
structure ChangeMap where
  address : String
  path : Option (List Nat)
deriving DecidableEq, Repr

/-- An attested input: its opaque frames, in order, plus an optional context
extension buffer (AttestedBox; frame buffers are opaque to the driver). -/
structure AttestedBox where
  frames : List (List Nat)
  extension : Option (List Nat)
deriving DecidableEq, Repr

/-- The complete transaction description handed to signTx (AttestedTx). -/
structure AttestedTx where
  inputs : List AttestedBox
  dataInputs : List String
  outputs : List BoxCandidate
  distinctTokenIds : List (List Nat)
  changeMap : ChangeMap
deriving DecidableEq, Repr

/-- Network tag (the numeric Network enum of the public types). -/
abbrev Network := Nat

/-! ## Device channel -/

/-- One command exchanged with the device: instruction byte, P1, P2 and the
payload bytes. -/
structure Cmd where
  ins : Nat
  p1 : Nat
  p2 : Nat
  data : List Nat
deriving DecidableEq, Repr

/-- A device response: status code and data bytes. -/
structure DevResp where
  code : Nat
  data : List Nat
deriving DecidableEq, Repr

/-- Modelled from the spec: the reserved success status code of the device
(spec section 6; the exact value is immaterial to every claim). -/
def RC_OK : Nat := 0x9000

/-- The device, as an oracle: the response it returns to the i-th command of
the session, counting from zero. -/
abbrev Oracle := Nat → DevResp

/-- Modelled from the spec: the SIGN_TX instruction code from the missing
device module; its exact value is immaterial to every claim. -/
def COMMAND_SIGN_TX : Nat := 0x21

/-- Modelled from the spec: the channel's maximum single-packet payload used
by the byte-bounded chunking of device.sendData; its exact value is
immaterial to every claim. -/
def MAX_DATA_CHUNK : Nat := 255

/-- Errors aborting a signing session: a device rejection carrying the raw
status code, or a malformed-input error thrown by the driver itself. -/
inductive SignTxError where
  | deviceRejected (code : Nat)
  | malformedInput (msg : String)
deriving DecidableEq, Repr

deriving instance DecidableEq for Except

/-- The driver computation: given the trace of commands already sent, extend
the trace and either produce a value or stop with an error. The trace of
commands issued so far survives an error, mirroring the fact that commands
already sent to the device cannot be withdrawn. -/
def M (α : Type) : Type := List Cmd → List Cmd × Except SignTxError α

namespace M

def pure (a : α) : M α := fun t => (t, .ok a)

def bind (x : M α) (f : α → M β) : M β := fun t =>
  match x t with
  | (t', .ok a) => f a t'
  | (t', .error e) => (t', .error e)

end M

instance : Monad M where
  pure := M.pure
  bind := M.bind

/-- Throwing an exception inside the driver. -/
def throwErr (e : SignTxError) : M α := fun t => (t, .error e)

/-- device.send: issue one command; the response is the oracle's answer for
the current call index. A non-success status becomes a device rejection, as
the device module maps every non-reserved status to an error (spec 6). -/
def devSend (device : Oracle) (c : Cmd) : M (List Nat) := fun t =>
  let r := device t.length
  (t ++ [c], if r.code = RC_OK then .ok r.data else .error (.deviceRejected r.code))

/-- Issue a list of commands in order, stopping at the first failure: the
for-loops of the driver that perform one send per element. -/
def execCmds (device : Oracle) : List Cmd → M Unit
  | [] => M.pure ()
  | c :: cs => M.bind (devSend device c) (fun _ => execCmds device cs)

/-- device.sendData: byte-bounded chunking done by the channel; splits the
payload into slices of at most MAX_DATA_CHUNK bytes and issues one send per
slice (spec 4.2 and 6). -/
def devSendData (device : Oracle) (ins p1 p2 : Nat) (data : List Nat) : M Unit :=
  execCmds device ((chunkList MAX_DATA_CHUNK data).map (fun ch => ⟨ins, p1, p2, ch⟩))

/-! ## The signTx interaction (src/interactions/signTx.ts) -/

/-- Hex form of the hard-coded mainnet miner-fee script
(MAINNET_MINER_FEE_TREE in signTx.ts). -/
def MAINNET_MINER_FEE_TREE : String :=
  "1005040004000e36100204a00b08cd0279be667ef9dcbbac55a06295ce870b07029bfcdb2dce28d959f2815b16f81798ea02d192a39a8cc7a701730073011001020402d19683030193a38cc7b2a57300000193c2b2a57301007473027303830108cdeeac93b1a57304"

/-- Hex form of the hard-coded testnet miner-fee script
(TESTNET_FEE_TREE in signTx.ts). -/
def TESTNET_FEE_TREE : String :=
  "1005040004000e36100204900108cd0279be667ef9dcbbac55a06295ce870b07029bfcdb2dce28d959f2815b16f81798ea02d192a39a8cc7a701730073011001020402d19683030193a38cc7b2a57300000193c2b2a57301007473027303830108cdeeac93b1a57304"

namespace P1

def START_SIGNING : Nat := 0x01
def START_TRANSACTION : Nat := 0x10
def ADD_TOKEN_IDS : Nat := 0x11
def ADD_INPUT_BOX_FRAME : Nat := 0x12
def ADD_INPUT_BOX_CONTEXT_EXTENSION_CHUNK : Nat := 0x13
def ADD_DATA_INPUTS : Nat := 0x14
def ADD_OUTPUT_BOX_START : Nat := 0x15
def ADD_OUTPUT_BOX_ERGO_TREE_CHUNK : Nat := 0x16
def ADD_OUTPUT_BOX_MINERS_FEE_TREE : Nat := 0x17
def ADD_OUTPUT_BOX_CHANGE_TREE : Nat := 0x18
def ADD_OUTPUT_BOX_TOKENS : Nat := 0x19
def ADD_OUTPUT_BOX_REGISTERS_CHUNK : Nat := 0x1a
def CONFIRM_AND_SIGN : Nat := 0x20

end P1

namespace P2

def WITHOUT_TOKEN : Nat := 0x01
def WITH_TOKEN : Nat := 0x02

end P2

/-- JavaScript truthiness of the optional numeric auth token: undefined and
zero are both falsy. -/
def authTruthy : Option Nat → Bool
  | some t => t != 0
  | none => false

/-- The start-signing command built by sendHeader: P2 is the with-token flag
exactly when the token is truthy, and the payload is the serialized signing
path followed by the 32-bit token when truthy. -/
def headerCmd (path : List Nat) (authToken : Option Nat) : Cmd :=
  { ins := COMMAND_SIGN_TX
    p1 := P1.START_SIGNING
    p2 := if authTruthy authToken then P2.WITH_TOKEN else P2.WITHOUT_TOKEN
    data := Serialize.bip32Path path ++
      (match authToken with
       | some t => if t != 0 then Serialize.uint32 t else []
       | none => []) }

/-- sendHeader: issue the start-signing command and read the session id from
the first byte of the response. -/
def sendHeader (device : Oracle) (path : List Nat) (authToken : Option Nat) : M Nat := do
  let response ← devSend device (headerCmd path authToken)
  pure (response.getD 0 0)

/-- The start-transaction command built by sendStartTx. -/
def startTxCmd (sessionId : Nat) (tx : AttestedTx) (uniqueTokenIdsCount : Nat) : Cmd :=
  { ins := COMMAND_SIGN_TX
    p1 := P1.START_TRANSACTION
    p2 := sessionId
    data := Serialize.uint16 tx.inputs.length ++ Serialize.uint16 tx.dataInputs.length ++
      Serialize.uint8 uniqueTokenIdsCount ++ Serialize.uint16 tx.outputs.length }

/-- sendStartTx: announce the transaction shape. -/
def sendStartTx (device : Oracle) (sessionId : Nat) (tx : AttestedTx)
    (uniqueTokenIdsCount : Nat) : M Nat := do
  let response ← devSend device (startTxCmd sessionId tx uniqueTokenIdsCount)
  pure (response.getD 0 0)

/-- The count-bounded packets of distinct token ids, one command per packet. -/
def tokenIdCmds (sessionId : Nat) (ids : List (List Nat)) : List Cmd :=
  (Serialize.arrayAndChunk ids 7 (fun id => id)).map
    (fun p => ⟨COMMAND_SIGN_TX, P1.ADD_TOKEN_IDS, sessionId, p⟩)

/-- sendDistinctTokensIds: skip entirely when there are no ids, otherwise
send the count-bounded packets in order (MAX_PACKET_SIZE is 7). -/
def sendDistinctTokensIds (device : Oracle) (sessionId : Nat) (ids : List (List Nat)) : M Unit :=
  if ids.length = 0 then M.pure ()
  else execCmds device (tokenIdCmds sessionId ids)

/-- One add-input-box-frame command. -/
def frameCmd (sessionId : Nat) (frame : List Nat) : Cmd :=
  ⟨COMMAND_SIGN_TX, P1.ADD_INPUT_BOX_FRAME, sessionId, frame⟩

/-- sendBoxContextExtension: route the extension buffer through sendData. -/
def sendBoxContextExtension (device : Oracle) (sessionId : Nat) (extension : List Nat) : M Unit :=
  devSendData device COMMAND_SIGN_TX P1.ADD_INPUT_BOX_CONTEXT_EXTENSION_CHUNK sessionId extension

/-- sendInputs: for each input, forward its frames in order, then send the
context extension only when it is defined and non-empty. -/
def sendInputs (device : Oracle) (sessionId : Nat) : List AttestedBox → M Unit
  | [] => M.pure ()
  | box :: rest => do
    execCmds device (box.frames.map (frameCmd sessionId))
    (match box.extension with
     | some ext =>
       if 0 < ext.length then sendBoxContextExtension device sessionId ext else M.pure ()
     | none => M.pure ())
    sendInputs device sessionId rest

/-- The count-bounded packets of data-input box ids, one command per packet. -/
def dataInputCmds (sessionId : Nat) (boxIds : List String) : List Cmd :=
  (Serialize.arrayAndChunk boxIds 7 Serialize.hex).map
    (fun p => ⟨COMMAND_SIGN_TX, P1.ADD_DATA_INPUTS, sessionId, p⟩)

/-- sendDataInputs: send the count-bounded packets of hex-decoded data-input
ids (MAX_PACKET_SIZE is 7). -/
def sendDataInputs (device : Oracle) (sessionId : Nat) (boxIds : List String) : M Unit :=
  execCmds device (dataInputCmds sessionId boxIds)

/-- The add-output-box-start command carrying the output metadata header. -/
def outputStartCmd (sessionId : Nat) (box : BoxCandidate) : Cmd :=
  { ins := COMMAND_SIGN_TX
    p1 := P1.ADD_OUTPUT_BOX_START
    p2 := sessionId
    data := Serialize.uint64 box.value ++ Serialize.uint32 box.ergoTree.length ++
      Serialize.uint32 box.creationHeight ++ Serialize.uint8 box.tokens.length ++
      Serialize.uint32 box.registers.length }

/-- The ergo-tree chunk commands for an external output script. -/
def ergoTreeChunkCmds (sessionId : Nat) (ergoTree : List Nat) : List Cmd :=
  (chunkList MAX_DATA_CHUNK ergoTree).map
    (fun ch => ⟨COMMAND_SIGN_TX, P1.ADD_OUTPUT_BOX_ERGO_TREE_CHUNK, sessionId, ch⟩)

/-- addOutputBoxErgoTree: stream the full script bytes through sendData. -/
def addOutputBoxErgoTree (device : Oracle) (sessionId : Nat) (ergoTree : List Nat) : M Unit :=
  devSendData device COMMAND_SIGN_TX P1.ADD_OUTPUT_BOX_ERGO_TREE_CHUNK sessionId ergoTree

/-- The miners-fee-tree command: its payload is the one-byte network tag,
never any script bytes. -/
def feeCmd (sessionId : Nat) (network : Network) : Cmd :=
  ⟨COMMAND_SIGN_TX, P1.ADD_OUTPUT_BOX_MINERS_FEE_TREE, sessionId, Serialize.uint8 network⟩

/-- addOutputBoxMinersFeeTree: send the fee-tree command. -/
def addOutputBoxMinersFeeTree (device : Oracle) (sessionId : Nat) (network : Network) : M Unit :=
  M.bind (devSend device (feeCmd sessionId network)) (fun _ => M.pure ())

/-- The change-tree command: its payload is exactly the serialized change
derivation path. -/
def changeCmd (sessionId : Nat) (path : List Nat) : Cmd :=
  ⟨COMMAND_SIGN_TX, P1.ADD_OUTPUT_BOX_CHANGE_TREE, sessionId, Serialize.bip32Path path⟩

/-- addOutputBoxChangeTree: throw when the change path is missing, else send
the serialized path. -/
def addOutputBoxChangeTree (device : Oracle) (sessionId : Nat) (path : Option (List Nat)) : M Unit :=
  match path with
  | none => throwErr (.malformedInput "change path is not present")
  | some p => M.bind (devSend device (changeCmd sessionId p)) (fun _ => M.pure ())

/-- Payload of the add-output-box-tokens command: for each token, the 32-bit
index of its id in the distinct-token-ids table followed by its 64-bit
amount. Modelled from the spec for the not-found case: the JavaScript
indexOf yields -1 there and serializing -1 as an unsigned 32-bit value is a
range error, the Malformed Input condition the spec calls a token reference
not found in the distinct-id table. -/
def tokensPayload (distinctTokenIds : List String) : List Token → Except SignTxError (List Nat)
  | [] => .ok []
  | t :: ts =>
    match List.findIdx? (fun s => s = t.id) distinctTokenIds with
    | none => .error (.malformedInput "token reference not found")
    | some i =>
      match tokensPayload distinctTokenIds ts with
      | .error e => .error e
      | .ok rest => .ok (Serialize.uint32 i ++ Serialize.uint64 t.amount ++ rest)

/-- The add-output-box-tokens command. -/
def tokensCmd (sessionId : Nat) (payload : List Nat) : Cmd :=
  ⟨COMMAND_SIGN_TX, P1.ADD_OUTPUT_BOX_TOKENS, sessionId, payload⟩

/-- addOutputBoxTokens: serialize the token entries and send them in one
command. -/
def addOutputBoxTokens (device : Oracle) (sessionId : Nat) (tokens : List Token)
    (distinctTokenIds : List String) : M Unit :=
  match tokensPayload distinctTokenIds tokens with
  | .error e => throwErr e
  | .ok payload => M.bind (devSend device (tokensCmd sessionId payload)) (fun _ => M.pure ())

/-- The register chunk commands. -/
def registersCmds (sessionId : Nat) (registers : List Nat) : List Cmd :=
  (chunkList MAX_DATA_CHUNK registers).map
    (fun ch => ⟨COMMAND_SIGN_TX, P1.ADD_OUTPUT_BOX_REGISTERS_CHUNK, sessionId, ch⟩)

/-- addOutputBoxRegisters: stream the register bytes through sendData. -/
def addOutputBoxRegisters (device : Oracle) (sessionId : Nat) (registers : List Nat) : M Unit :=
  devSendData device COMMAND_SIGN_TX P1.ADD_OUTPUT_BOX_REGISTERS_CHUNK sessionId registers

/-- sendOutputs, one loop iteration per output box. The address-derivation
function of the external fleet-sdk (ErgoAddress.fromErgoTree combined with
toString) is passed in as addrOf, mapping the hex script to its canonical
address string. -/
def sendOutputsLoop (device : Oracle) (sessionId : Nat) (changeMap : ChangeMap)
    (distinctTokenIdsStr : List String) (network : Network) (addrOf : String → String) :
    List BoxCandidate → M Unit
  | [] => M.pure ()
  | box :: rest => do
    let _ ← devSend device (outputStartCmd sessionId box)
    let tree := Deserialize.hex box.ergoTree
    (if tree = MAINNET_MINER_FEE_TREE ∨ tree = TESTNET_FEE_TREE then
      addOutputBoxMinersFeeTree device sessionId network
    else if addrOf tree = changeMap.address then
      addOutputBoxChangeTree device sessionId changeMap.path
    else
      addOutputBoxErgoTree device sessionId box.ergoTree)
    (if 0 < box.tokens.length then
      addOutputBoxTokens device sessionId box.tokens distinctTokenIdsStr
    else M.pure ())
    (if 0 < box.registers.length then
      addOutputBoxRegisters device sessionId box.registers
    else M.pure ())
    sendOutputsLoop device sessionId changeMap distinctTokenIdsStr network addrOf rest

/-- sendOutputs: hex-encode the distinct token ids once, then process each
output box in order. -/
def sendOutputs (device : Oracle) (sessionId : Nat) (boxes : List BoxCandidate)
    (changeMap : ChangeMap) (distinctTokenIds : List (List Nat)) (network : Network)
    (addrOf : String → String) : M Unit :=
  sendOutputsLoop device sessionId changeMap (distinctTokenIds.map Deserialize.hex)
    network addrOf boxes

/-- The confirm-and-sign command: empty payload. -/
def confirmCmd (sessionId : Nat) : Cmd :=
  ⟨COMMAND_SIGN_TX, P1.CONFIRM_AND_SIGN, sessionId, []⟩

/-- sendConfirmAndSign: request finalization and return the signature bytes. -/
def sendConfirmAndSign (device : Oracle) (sessionId : Nat) : M (List Nat) :=
  devSend device (confirmCmd sessionId)

/-- signTx: the complete signing session, strictly sequential. -/
def signTx (device : Oracle) (tx : AttestedTx) (signPath : List Nat) (network : Network)
    (authToken : Option Nat) (addrOf : String → String) : M (List Nat) := do
  let sessionId ← sendHeader device signPath authToken
  let _ ← sendStartTx device sessionId tx tx.distinctTokenIds.length
  sendDistinctTokensIds device sessionId tx.distinctTokenIds
  sendInputs device sessionId tx.inputs
  sendDataInputs device sessionId tx.dataInputs
  sendOutputs device sessionId tx.outputs tx.changeMap tx.distinctTokenIds network addrOf
  sendConfirmAndSign device sessionId

/-- A complete run of signTx from the empty trace: the commands issued and
the outcome. -/
def signTxRun (device : Oracle) (tx : AttestedTx) (signPath : List Nat) (network : Network)
    (authToken : Option Nat) (addrOf : String → String) : List Cmd × Except SignTxError (List Nat) :=
  signTx device tx signPath network authToken addrOf []

end ErgoLedger

namespace ErgoLedger

/-! ## Proof infrastructure: plans of commands

A plan is the pure description of a straight-line stretch of the protocol:
the commands the driver intends to send, in order, plus an optional
malformed-input error it raises after the last of them. The monadic driver
functions are proved equal to the execution of their plans, and every
ordering or payload property is then read off the plan. -/

/-- A straight-line plan: commands in order, then an optional thrown error. -/
abbrev Plan := List Cmd × Option SignTxError

/-- Execute a plan: send its commands in order, then raise its error if any. -/
def execPlan (device : Oracle) (p : Plan) : M Unit :=
  M.bind (execCmds device p.1)
    (fun _ =>
      match p.2 with
      | none => M.pure ()
      | some e => throwErr e)

/-- Sequencing of plans: when the first plan raises an error, the second is
never reached. -/
def Plan.seq (p q : Plan) : Plan :=
  match p.2 with
  | some _ => p
  | none => (p.1 ++ q.1, q.2)

/-- Index of the first failing device response among the next n calls,
counting from call index base. -/
def firstFail (device : Oracle) (base : Nat) : Nat → Option Nat
  | 0 => none
  | n + 1 =>
    if (device base).code = RC_OK then (firstFail device (base + 1) n).map (fun k => k + 1)
    else some 0

theorem bind_eq_M_bind (x : M α) (f : α → M β) : x >>= f = M.bind x f := rfl

theorem pure_eq_M_pure (a : α) : (Pure.pure a : M α) = M.pure a := rfl

theorem M.bind_assoc_pt (x : M α) (f : α → M β) (g : β → M γ) (t : List Cmd) :
    M.bind (M.bind x f) g t = M.bind x (fun a => M.bind (f a) g) t := by
  simp only [M.bind]
  rcases hx : x t with ⟨t', r⟩
  cases r <;> simp

theorem M.bind_congr_pt {x y : M α} {f g : α → M β} (hx : ∀ t, x t = y t)
    (hf : ∀ a t, f a t = g a t) (t : List Cmd) : M.bind x f t = M.bind y g t := by
  simp only [M.bind, hx t]
  rcases y t with ⟨t', r⟩
  cases r <;> simp [hf]

theorem M.bind_pure_pt (x : M α) (t : List Cmd) :
    M.bind x (fun a => M.pure a) t = x t := by
  simp only [M.bind, M.pure]
  rcases x t with ⟨t', r⟩
  cases r <;> simp

/-- Characterization of a straight run of sends: it stops at the first
non-success response and keeps the failing command in the trace. -/
theorem execCmds_eq (device : Oracle) (l : List Cmd) (t : List Cmd) :
    execCmds device l t =
      match firstFail device t.length l.length with
      | none => (t ++ l, .ok ())
      | some k => (t ++ l.take (k + 1), .error (.deviceRejected (device (t.length + k)).code)) := by
  induction l generalizing t with
  | nil => simp [execCmds, firstFail, M.pure]
  | cons c cs ih =>
    by_cases h : (device t.length).code = RC_OK
    · have step : execCmds device (c :: cs) t = execCmds device cs (t ++ [c]) := by
        simp [execCmds, M.bind, devSend, h]
      rw [step, ih]
      have hlen : (t ++ [c]).length = t.length + 1 := by simp
      simp only [hlen, List.length_cons, firstFail, h, if_true]
      cases hf : firstFail device (t.length + 1) cs.length with
      | none => simp
      | some k =>
        simp only [Option.map_some']
        have h1 : t ++ [c] ++ cs.take (k + 1) = t ++ (c :: cs).take (k + 1 + 1) := by
          simp [List.take_succ_cons, List.append_assoc]
        have h2 : t.length + 1 + k = t.length + (k + 1) := by omega
        rw [h1, h2]
    · simp [execCmds, M.bind, devSend, h, firstFail, List.take_succ_cons]

theorem firstFail_none_ok (device : Oracle) (base n : Nat)
    (h : firstFail device base n = none) : ∀ i < n, (device (base + i)).code = RC_OK := by
  induction n generalizing base with
  | zero => omega
  | succ n ih =>
    intro i hi
    by_cases hb : (device base).code = RC_OK
    · simp only [firstFail, hb, if_true, Option.map_eq_none'] at h
      cases i with
      | zero => simpa using hb
      | succ i =>
        have := ih (base + 1) h i (by omega)
        simpa [Nat.add_assoc, Nat.add_comm 1 i] using this
    · simp [firstFail, hb] at h

theorem firstFail_some_spec (device : Oracle) (base n k : Nat)
    (h : firstFail device base n = some k) :
    k < n ∧ (device (base + k)).code ≠ RC_OK ∧ ∀ j < k, (device (base + j)).code = RC_OK := by
  induction n generalizing base k with
  | zero => simp [firstFail] at h
  | succ n ih =>
    by_cases hb : (device base).code = RC_OK
    · simp only [firstFail, hb, if_true, Option.map_eq_some'] at h
      obtain ⟨k', hk', rfl⟩ := h
      obtain ⟨h1, h2, h3⟩ := ih (base + 1) k' hk'
      refine ⟨by omega, ?_, ?_⟩
      · simpa [Nat.add_assoc, Nat.add_comm 1 k'] using h2
      · intro j hj
        cases j with
        | zero => simpa using hb
        | succ j =>
          have := h3 j (by omega)
          simpa [Nat.add_assoc, Nat.add_comm 1 j] using this
    · simp only [firstFail, hb, if_false, Option.some_inj] at h
      subst h
      exact ⟨by omega, by simpa using hb, by omega⟩

theorem firstFail_of_all_ok (device : Oracle) (base n : Nat)
    (h : ∀ i < n, (device (base + i)).code = RC_OK) : firstFail device base n = none := by
  cases hf : firstFail device base n with
  | none => rfl
  | some k =>
    obtain ⟨h1, h2, _⟩ := firstFail_some_spec device base n k hf
    exact absurd (h k h1) h2

/-- Characterization of a plan execution. -/
theorem execPlan_eq (device : Oracle) (p : Plan) (t : List Cmd) :
    execPlan device p t =
      match firstFail device t.length p.1.length with
      | none => (t ++ p.1, match p.2 with | none => .ok () | some e => .error e)
      | some k => (t ++ p.1.take (k + 1), .error (.deviceRejected (device (t.length + k)).code)) := by
  simp only [execPlan, M.bind, execCmds_eq]
  cases hf : firstFail device t.length p.1.length with
  | none => cases p.2 <;> simp [M.pure, throwErr]
  | some k => simp

end ErgoLedger

namespace ErgoLedger

theorem execPlan_cmds (device : Oracle) (l : List Cmd) (t : List Cmd) :
    execPlan device (l, none) t = execCmds device l t := by
  simp only [execPlan]
  have := M.bind_pure_pt (execCmds device l) t
  simpa using this

theorem execPlan_nil_pt (device : Oracle) (t : List Cmd) :
    execPlan device ([], none) t = (t, .ok ()) := by
  simp [execPlan_cmds, execCmds, M.pure]

theorem execPlan_throw_pt (device : Oracle) (e : SignTxError) (t : List Cmd) :
    execPlan device ([], some e) t = (t, .error e) := by
  simp [execPlan, execCmds, M.bind, M.pure, throwErr]

theorem execPlan_single_pt (device : Oracle) (c : Cmd) (t : List Cmd) :
    execPlan device ([c], none) t = M.bind (devSend device c) (fun _ => M.pure ()) t := by
  simp only [execPlan_cmds, execCmds]

theorem execCmds_append_pt (device : Oracle) (l₁ l₂ : List Cmd) (t : List Cmd) :
    execCmds device (l₁ ++ l₂) t =
      M.bind (execCmds device l₁) (fun _ => execCmds device l₂) t := by
  induction l₁ generalizing t with
  | nil => rfl
  | cons c cs ih =>
    simp only [List.cons_append, execCmds, M.bind, devSend]
    by_cases h : (device t.length).code = RC_OK <;> simp [h, ih, M.bind]

theorem execCmds_bind_append (device : Oracle) (l₁ l₂ : List Cmd) (k : Unit → M β)
    (t : List Cmd) :
    M.bind (execCmds device (l₁ ++ l₂)) k t =
      M.bind (execCmds device l₁) (fun _ => M.bind (execCmds device l₂) k) t :=
  Eq.trans (M.bind_congr_pt (fun t => execCmds_append_pt device l₁ l₂ t) (fun a t => rfl) t)
    (M.bind_assoc_pt _ _ _ t)

/-- Sequencing two plan executions is executing the sequenced plan. -/
theorem execPlan_seq_pt (device : Oracle) (p q : Plan) (t : List Cmd) :
    M.bind (execPlan device p) (fun _ => execPlan device q) t =
      execPlan device (Plan.seq p q) t := by
  cases hp : p.2 with
  | some e =>
    simp only [Plan.seq, hp, execPlan, M.bind, throwErr]
    rcases execCmds device p.1 t with ⟨t', r⟩
    cases r <;> simp [hp]
  | none =>
    simp only [Plan.seq, hp, execPlan]
    rw [M.bind_assoc_pt, execCmds_bind_append]
    exact M.bind_congr_pt (fun _ => rfl) (fun a t' => rfl) t

end ErgoLedger

namespace ErgoLedger

/-! ## Plans of the individual protocol steps -/

/-- The context-extension chunk commands sent by sendBoxContextExtension. -/
def extensionCmds (sessionId : Nat) (ext : List Nat) : List Cmd :=
  (chunkList MAX_DATA_CHUNK ext).map
    (fun ch => ⟨COMMAND_SIGN_TX, P1.ADD_INPUT_BOX_CONTEXT_EXTENSION_CHUNK, sessionId, ch⟩)

/-- The extension commands for one input: none unless the extension is
defined and non-empty. -/
def inputExtCmds (sessionId : Nat) : Option (List Nat) → List Cmd
  | some ext => if 0 < ext.length then extensionCmds sessionId ext else []
  | none => []

/-- All commands one attested input contributes: its frames in order, then
its extension chunks when present and non-empty. -/
def inputBoxCmds (sessionId : Nat) (box : AttestedBox) : List Cmd :=
  box.frames.map (frameCmd sessionId) ++ inputExtCmds sessionId box.extension

/-- All commands of the input-streaming step. -/
def inputsCmds (sessionId : Nat) (boxes : List AttestedBox) : List Cmd :=
  (boxes.map (inputBoxCmds sessionId)).flatten

/-- The tree sub-step of one output: the classification of sendOutputs.
Exactly one of the fee command, the change command or the ergo-tree chunk
commands, or a malformed-input error when a change output is detected but
the change path is missing. -/
def outputTreePlan (sessionId : Nat) (changeMap : ChangeMap) (network : Network)
    (addrOf : String → String) (box : BoxCandidate) : Plan :=
  let tree := Deserialize.hex box.ergoTree
  if tree = MAINNET_MINER_FEE_TREE ∨ tree = TESTNET_FEE_TREE then
    ([feeCmd sessionId network], none)
  else if addrOf tree = changeMap.address then
    match changeMap.path with
    | none => ([], some (.malformedInput "change path is not present"))
    | some p => ([changeCmd sessionId p], none)
  else (ergoTreeChunkCmds sessionId box.ergoTree, none)

/-- The token sub-step of one output. -/
def outputTokensPlan (sessionId : Nat) (distinctTokenIdsStr : List String)
    (box : BoxCandidate) : Plan :=
  if 0 < box.tokens.length then
    match tokensPayload distinctTokenIdsStr box.tokens with
    | .error e => ([], some e)
    | .ok payload => ([tokensCmd sessionId payload], none)
  else ([], none)

/-- The register sub-step of one output. -/
def outputRegistersPlan (sessionId : Nat) (box : BoxCandidate) : Plan :=
  if 0 < box.registers.length then (registersCmds sessionId box.registers, none)
  else ([], none)

/-- The full plan of one output box: start command, tree sub-step, tokens,
registers. -/
def outputBoxPlan (sessionId : Nat) (changeMap : ChangeMap) (distinctTokenIdsStr : List String)
    (network : Network) (addrOf : String → String) (box : BoxCandidate) : Plan :=
  Plan.seq ([outputStartCmd sessionId box], none)
    (Plan.seq (outputTreePlan sessionId changeMap network addrOf box)
      (Plan.seq (outputTokensPlan sessionId distinctTokenIdsStr box)
        (outputRegistersPlan sessionId box)))

/-- The plan of the whole output-streaming step. -/
def outputsPlan (sessionId : Nat) (changeMap : ChangeMap) (distinctTokenIdsStr : List String)
    (network : Network) (addrOf : String → String) : List BoxCandidate → Plan
  | [] => ([], none)
  | box :: rest =>
    Plan.seq (outputBoxPlan sessionId changeMap distinctTokenIdsStr network addrOf box)
      (outputsPlan sessionId changeMap distinctTokenIdsStr network addrOf rest)

/-- The session id of a run: the first byte of the response to the first
command. -/
def sessionIdOf (device : Oracle) : Nat := (device 0).data.getD 0 0

/-- The plan of everything after the start-signing command. -/
def bodyPlan (sessionId : Nat) (tx : AttestedTx) (network : Network)
    (addrOf : String → String) : Plan :=
  Plan.seq (Plan.seq (Plan.seq (Plan.seq (Plan.seq
    ([startTxCmd sessionId tx tx.distinctTokenIds.length], none)
    (tokenIdCmds sessionId tx.distinctTokenIds, none))
    (inputsCmds sessionId tx.inputs, none))
    (dataInputCmds sessionId tx.dataInputs, none))
    (outputsPlan sessionId tx.changeMap (tx.distinctTokenIds.map Deserialize.hex)
      network addrOf tx.outputs))
    ([confirmCmd sessionId], none)

/-- The plan of a complete signTx run. -/
def fullPlan (device : Oracle) (tx : AttestedTx) (signPath : List Nat) (network : Network)
    (authToken : Option Nat) (addrOf : String → String) : Plan :=
  Plan.seq ([headerCmd signPath authToken], none)
    (bodyPlan (sessionIdOf device) tx network addrOf)

/-! ## Linking the monadic driver to its plans -/

theorem sendDistinctTokensIds_eq (device : Oracle) (sessionId : Nat)
    (ids : List (List Nat)) (t : List Cmd) :
    sendDistinctTokensIds device sessionId ids t =
      execCmds device (tokenIdCmds sessionId ids) t := by
  cases ids with
  | nil =>
    simp [sendDistinctTokensIds, tokenIdCmds, Serialize.arrayAndChunk, chunkList, chunkListF,
      execCmds, M.pure]
  | cons i is => rfl

theorem inputExt_eq (device : Oracle) (sessionId : Nat) (ext : Option (List Nat))
    (t : List Cmd) :
    (match ext with
     | some e =>
       if 0 < e.length then sendBoxContextExtension device sessionId e else M.pure ()
     | none => M.pure ()) t = execCmds device (inputExtCmds sessionId ext) t := by
  cases ext with
  | none => rfl
  | some e =>
    by_cases h : 0 < e.length
    · simp [h, inputExtCmds, sendBoxContextExtension, devSendData, extensionCmds]
    · simp [h, inputExtCmds, execCmds]

theorem sendInputs_eq (device : Oracle) (sessionId : Nat) (boxes : List AttestedBox)
    (t : List Cmd) :
    sendInputs device sessionId boxes t = execCmds device (inputsCmds sessionId boxes) t := by
  induction boxes generalizing t with
  | nil => rfl
  | cons box rest ih =>
    have hcmds : inputsCmds sessionId (box :: rest) =
        (box.frames.map (frameCmd sessionId) ++ inputExtCmds sessionId box.extension) ++
          inputsCmds sessionId rest := by
      simp [inputsCmds, inputBoxCmds]
    rw [hcmds, execCmds_append_pt, execCmds_bind_append]
    simp only [sendInputs, bind_eq_M_bind]
    exact M.bind_congr_pt (fun _ => rfl)
      (fun a t' => M.bind_congr_pt (fun u => inputExt_eq device sessionId box.extension u)
        (fun b u => ih u) t') t

theorem sendDataInputs_eq (device : Oracle) (sessionId : Nat) (boxIds : List String)
    (t : List Cmd) :
    sendDataInputs device sessionId boxIds t =
      execCmds device (dataInputCmds sessionId boxIds) t := rfl

end ErgoLedger

namespace ErgoLedger

theorem devSend_bind_pt (device : Oracle) (c : Cmd) (K : M β) (t : List Cmd) :
    M.bind (devSend device c) (fun _ => K) t =
      M.bind (execPlan device ([c], none)) (fun _ => K) t := by
  simp only [M.bind, devSend, execPlan, execCmds, M.pure]
  by_cases h : (device t.length).code = RC_OK <;> simp [h, M.bind, M.pure]

theorem bind_execPlan_seq (device : Oracle) (p q : Plan) (k : Unit → M β) (t : List Cmd) :
    M.bind (execPlan device (Plan.seq p q)) k t =
      M.bind (execPlan device p) (fun _ => M.bind (execPlan device q) k) t := by
  refine Eq.trans (M.bind_congr_pt (fun t' => (execPlan_seq_pt device p q t').symm)
    (fun a t' => rfl) t) ?_
  exact M.bind_assoc_pt _ _ _ t

theorem treeStep_eq (device : Oracle) (sessionId : Nat) (changeMap : ChangeMap)
    (network : Network) (addrOf : String → String) (box : BoxCandidate) (t : List Cmd) :
    (if Deserialize.hex box.ergoTree = MAINNET_MINER_FEE_TREE ∨
        Deserialize.hex box.ergoTree = TESTNET_FEE_TREE then
      addOutputBoxMinersFeeTree device sessionId network
    else if addrOf (Deserialize.hex box.ergoTree) = changeMap.address then
      addOutputBoxChangeTree device sessionId changeMap.path
    else
      addOutputBoxErgoTree device sessionId box.ergoTree) t =
      execPlan device (outputTreePlan sessionId changeMap network addrOf box) t := by
  simp only [outputTreePlan]
  by_cases hfee : Deserialize.hex box.ergoTree = MAINNET_MINER_FEE_TREE ∨
      Deserialize.hex box.ergoTree = TESTNET_FEE_TREE
  · simp only [hfee, if_true, addOutputBoxMinersFeeTree, execPlan_single_pt]
  · by_cases hch : addrOf (Deserialize.hex box.ergoTree) = changeMap.address
    · simp only [hfee, hch, if_false, if_true, addOutputBoxChangeTree]
      cases changeMap.path with
      | none => simp [execPlan_throw_pt, throwErr]
      | some p => simp [execPlan_single_pt]
    · simp only [hfee, hch, if_false, addOutputBoxErgoTree, devSendData]
      rw [execPlan_cmds]
      rfl

theorem tokensStep_eq (device : Oracle) (sessionId : Nat)
    (distinctTokenIdsStr : List String) (box : BoxCandidate) (t : List Cmd) :
    (if 0 < box.tokens.length then
      addOutputBoxTokens device sessionId box.tokens distinctTokenIdsStr
    else M.pure ()) t =
      execPlan device (outputTokensPlan sessionId distinctTokenIdsStr box) t := by
  simp only [outputTokensPlan]
  by_cases h : 0 < box.tokens.length
  · simp only [h, if_true, addOutputBoxTokens]
    cases hp : tokensPayload distinctTokenIdsStr box.tokens with
    | error e => simp [execPlan_throw_pt, throwErr]
    | ok payload => simp [execPlan_single_pt]
  · simp [h, execPlan_nil_pt, M.pure]

theorem regsStep_eq (device : Oracle) (sessionId : Nat) (box : BoxCandidate) (t : List Cmd) :
    (if 0 < box.registers.length then
      addOutputBoxRegisters device sessionId box.registers
    else M.pure ()) t = execPlan device (outputRegistersPlan sessionId box) t := by
  simp only [outputRegistersPlan]
  by_cases h : 0 < box.registers.length
  · simp only [h, if_true, addOutputBoxRegisters, devSendData]
    rw [execPlan_cmds]
    rfl
  · simp [h, execPlan_nil_pt, M.pure]

theorem execPlan_outputsCons (device : Oracle) (sessionId : Nat) (changeMap : ChangeMap)
    (distinctTokenIdsStr : List String) (network : Network) (addrOf : String → String)
    (box : BoxCandidate) (rest : List BoxCandidate) (t : List Cmd) :
    execPlan device
        (outputsPlan sessionId changeMap distinctTokenIdsStr network addrOf (box :: rest)) t =
      M.bind (execPlan device ([outputStartCmd sessionId box], none)) (fun _ =>
        M.bind (execPlan device (outputTreePlan sessionId changeMap network addrOf box))
          (fun _ =>
            M.bind (execPlan device (outputTokensPlan sessionId distinctTokenIdsStr box))
              (fun _ =>
                M.bind (execPlan device (outputRegistersPlan sessionId box)) (fun _ =>
                  execPlan device
                    (outputsPlan sessionId changeMap distinctTokenIdsStr network addrOf
                      rest))))) t := by
  rw [show execPlan device
      (outputsPlan sessionId changeMap distinctTokenIdsStr network addrOf (box :: rest)) t =
      M.bind (execPlan device
        (outputsPlan sessionId changeMap distinctTokenIdsStr network addrOf (box :: rest)))
        (fun a => M.pure a) t from (M.bind_pure_pt _ t).symm]
  simp only [outputsPlan, outputBoxPlan]
  rw [bind_execPlan_seq, bind_execPlan_seq]
  refine M.bind_congr_pt (fun _ => rfl) (fun a t1 => ?_) t
  rw [bind_execPlan_seq]
  refine M.bind_congr_pt (fun _ => rfl) (fun b t2 => ?_) t1
  rw [bind_execPlan_seq]
  refine M.bind_congr_pt (fun _ => rfl) (fun d t3 => ?_) t2
  refine M.bind_congr_pt (fun _ => rfl) (fun d' t4 => ?_) t3
  exact M.bind_pure_pt _ t4

theorem sendOutputsLoop_eq (device : Oracle) (sessionId : Nat) (changeMap : ChangeMap)
    (distinctTokenIdsStr : List String) (network : Network) (addrOf : String → String)
    (boxes : List BoxCandidate) (t : List Cmd) :
    sendOutputsLoop device sessionId changeMap distinctTokenIdsStr network addrOf boxes t =
      execPlan device
        (outputsPlan sessionId changeMap distinctTokenIdsStr network addrOf boxes) t := by
  induction boxes generalizing t with
  | nil => rfl
  | cons box rest ih =>
    rw [execPlan_outputsCons]
    simp only [sendOutputsLoop, bind_eq_M_bind]
    refine Eq.trans (devSend_bind_pt device _ _ t) ?_
    refine M.bind_congr_pt (fun _ => rfl) (fun a t1 => ?_) t
    refine Eq.trans (M.bind_congr_pt
      (fun u => treeStep_eq device sessionId changeMap network addrOf box u)
      (fun b u => rfl) t1) ?_
    refine M.bind_congr_pt (fun _ => rfl) (fun b t2 => ?_) t1
    refine Eq.trans (M.bind_congr_pt
      (fun u => tokensStep_eq device sessionId distinctTokenIdsStr box u)
      (fun d u => rfl) t2) ?_
    refine M.bind_congr_pt (fun _ => rfl) (fun d t3 => ?_) t2
    exact M.bind_congr_pt (fun u => regsStep_eq device sessionId box u)
      (fun d u => ih u) t3

theorem sendOutputs_eq (device : Oracle) (sessionId : Nat) (boxes : List BoxCandidate)
    (changeMap : ChangeMap) (distinctTokenIds : List (List Nat)) (network : Network)
    (addrOf : String → String) (t : List Cmd) :
    sendOutputs device sessionId boxes changeMap distinctTokenIds network addrOf t =
      execPlan device (outputsPlan sessionId changeMap (distinctTokenIds.map Deserialize.hex)
        network addrOf boxes) t :=
  sendOutputsLoop_eq device sessionId changeMap (distinctTokenIds.map Deserialize.hex)
    network addrOf boxes t

end ErgoLedger

namespace ErgoLedger

theorem execPlan_then_devSend (device : Oracle) (P : Plan) (c : Cmd) (t : List Cmd) :
    M.bind (execPlan device P) (fun _ => devSend device c) t =
      ((execPlan device (Plan.seq P ([c], none)) t).1,
       (execPlan device (Plan.seq P ([c], none)) t).2.map
         (fun _ => (device ((execPlan device (Plan.seq P ([c], none)) t).1.length - 1)).data)) := by
  have hseq : execPlan device (Plan.seq P ([c], none)) t =
      M.bind (execPlan device P) (fun _ => execPlan device ([c], none)) t :=
    (execPlan_seq_pt device P ([c], none) t).symm
  rw [hseq]
  rcases hP : execPlan device P t with ⟨t1, r⟩
  cases r with
  | error e => simp [M.bind, hP, Except.map]
  | ok a =>
    simp only [M.bind, hP]
    rw [execPlan_single_pt]
    simp only [M.bind, devSend, M.pure]
    by_cases h : (device t1.length).code = RC_OK <;>
      simp [h, List.length_append, Except.map]

/-- The monadic tail of signTx after the session id is known equals the
execution of the body plan, with the final value taken from the last
response. -/
theorem signTxChain_eq (device : Oracle) (sessionId : Nat) (tx : AttestedTx)
    (network : Network) (addrOf : String → String) (t : List Cmd) :
    M.bind (sendStartTx device sessionId tx tx.distinctTokenIds.length) (fun _ =>
      M.bind (sendDistinctTokensIds device sessionId tx.distinctTokenIds) (fun _ =>
        M.bind (sendInputs device sessionId tx.inputs) (fun _ =>
          M.bind (sendDataInputs device sessionId tx.dataInputs) (fun _ =>
            M.bind (sendOutputs device sessionId tx.outputs tx.changeMap tx.distinctTokenIds
                network addrOf)
              (fun _ => sendConfirmAndSign device sessionId))))) t =
      ((execPlan device (bodyPlan sessionId tx network addrOf) t).1,
       (execPlan device (bodyPlan sessionId tx network addrOf) t).2.map
         (fun _ =>
           (device ((execPlan device
             (bodyPlan sessionId tx network addrOf) t).1.length - 1)).data)) := by
  have L2 : M.bind (execPlan device ([startTxCmd sessionId tx tx.distinctTokenIds.length], none))
      (fun _ =>
        M.bind (execPlan device (tokenIdCmds sessionId tx.distinctTokenIds, none)) (fun _ =>
          M.bind (execPlan device (inputsCmds sessionId tx.inputs, none)) (fun _ =>
            M.bind (execPlan device (dataInputCmds sessionId tx.dataInputs, none)) (fun _ =>
              M.bind (execPlan device (outputsPlan sessionId tx.changeMap
                  (tx.distinctTokenIds.map Deserialize.hex) network addrOf tx.outputs))
                (fun _ => devSend device (confirmCmd sessionId)))))) t =
      ((execPlan device (bodyPlan sessionId tx network addrOf) t).1,
       (execPlan device (bodyPlan sessionId tx network addrOf) t).2.map
         (fun _ =>
           (device ((execPlan device
             (bodyPlan sessionId tx network addrOf) t).1.length - 1)).data)) := by
    rw [← bind_execPlan_seq, ← bind_execPlan_seq, ← bind_execPlan_seq, ← bind_execPlan_seq]
    exact execPlan_then_devSend device _ (confirmCmd sessionId) t
  refine Eq.trans ?_ L2
  have hstart : ∀ (K : M (List Nat)) (u : List Cmd),
      M.bind (sendStartTx device sessionId tx tx.distinctTokenIds.length) (fun _ => K) u =
        M.bind (execPlan device ([startTxCmd sessionId tx tx.distinctTokenIds.length], none))
          (fun _ => K) u := by
    intro K u
    simp only [sendStartTx, bind_eq_M_bind, pure_eq_M_pure]
    rw [M.bind_assoc_pt]
    exact devSend_bind_pt device _ K u
  refine Eq.trans (hstart _ t) ?_
  refine M.bind_congr_pt (fun _ => rfl) (fun a t1 => ?_) t
  refine Eq.trans (M.bind_congr_pt
    (fun u => Eq.trans (sendDistinctTokensIds_eq device sessionId tx.distinctTokenIds u)
      (execPlan_cmds device _ u).symm)
    (fun b u => rfl) t1) ?_
  refine M.bind_congr_pt (fun _ => rfl) (fun b t2 => ?_) t1
  refine Eq.trans (M.bind_congr_pt
    (fun u => Eq.trans (sendInputs_eq device sessionId tx.inputs u)
      (execPlan_cmds device _ u).symm)
    (fun d u => rfl) t2) ?_
  refine M.bind_congr_pt (fun _ => rfl) (fun d t3 => ?_) t2
  refine Eq.trans (M.bind_congr_pt
    (fun u => Eq.trans (sendDataInputs_eq device sessionId tx.dataInputs u)
      (execPlan_cmds device _ u).symm)
    (fun d' u => rfl) t3) ?_
  refine M.bind_congr_pt (fun _ => rfl) (fun d' t4 => ?_) t3
  exact M.bind_congr_pt
    (fun u => sendOutputs_eq device sessionId tx.outputs tx.changeMap tx.distinctTokenIds
      network addrOf u)
    (fun d'' u => rfl) t4

/-- A signTx run is the execution of its full plan, the signature bytes
being the data of the response to the last command sent. -/
theorem signTxRun_eq (device : Oracle) (tx : AttestedTx) (signPath : List Nat)
    (network : Network) (authToken : Option Nat) (addrOf : String → String) :
    signTxRun device tx signPath network authToken addrOf =
      ((execPlan device (fullPlan device tx signPath network authToken addrOf) []).1,
       (execPlan device (fullPlan device tx signPath network authToken addrOf) []).2.map
         (fun _ =>
           (device ((execPlan device
             (fullPlan device tx signPath network authToken addrOf) []).1.length - 1)).data)) := by
  have hfull : execPlan device (fullPlan device tx signPath network authToken addrOf) [] =
      M.bind (execPlan device ([headerCmd signPath authToken], none))
        (fun _ => execPlan device (bodyPlan (sessionIdOf device) tx network addrOf)) [] :=
    (execPlan_seq_pt device _ _ []).symm
  rw [hfull]
  simp only [signTxRun, signTx, sendHeader, bind_eq_M_bind, pure_eq_M_pure]
  rw [M.bind_assoc_pt]
  by_cases h0 : (device 0).code = RC_OK
  · have hdev : devSend device (headerCmd signPath authToken) [] =
        ([headerCmd signPath authToken], .ok (device 0).data) := by
      simp [devSend, h0]
    simp only [M.bind, hdev]
    have hsingle : execPlan device ([headerCmd signPath authToken], none) [] =
        ([headerCmd signPath authToken], .ok ()) := by
      rw [execPlan_single_pt]
      simp [M.bind, devSend, M.pure, h0]
    simp only [hsingle]
    exact signTxChain_eq device (sessionIdOf device) tx network addrOf
      [headerCmd signPath authToken]
  · have hdev : devSend device (headerCmd signPath authToken) [] =
        ([headerCmd signPath authToken], .error (.deviceRejected (device 0).code)) := by
      simp [devSend, h0]
    have hsingle : execPlan device ([headerCmd signPath authToken], none) [] =
        ([headerCmd signPath authToken], .error (.deviceRejected (device 0).code)) := by
      rw [execPlan_single_pt]
      simp [M.bind, devSend, M.pure, h0]
    simp [M.bind, hdev, hsingle, Except.map]

end ErgoLedger

namespace ErgoLedger

/-- Complete characterization of a signTx run: the trace is cut at the first
failing response, otherwise the whole plan is sent and the plan's own error,
if any, is raised at the end. -/
theorem signTxRun_char (device : Oracle) (tx : AttestedTx) (signPath : List Nat)
    (network : Network) (authToken : Option Nat) (addrOf : String → String) :
    signTxRun device tx signPath network authToken addrOf =
      (match firstFail device 0 (fullPlan device tx signPath network authToken addrOf).1.length with
       | some k => ((fullPlan device tx signPath network authToken addrOf).1.take (k + 1),
           .error (.deviceRejected (device k).code))
       | none => ((fullPlan device tx signPath network authToken addrOf).1,
           match (fullPlan device tx signPath network authToken addrOf).2 with
           | none => .ok ((device
               ((fullPlan device tx signPath network authToken addrOf).1.length - 1)).data)
           | some e => .error e)) := by
  rw [signTxRun_eq, execPlan_eq]
  simp only [List.length_nil, List.nil_append]
  cases hf : firstFail device 0 (fullPlan device tx signPath network authToken addrOf).1.length with
  | none =>
    cases h2 : (fullPlan device tx signPath network authToken addrOf).2 <;> simp [Except.map]
  | some k => simp [Except.map, Nat.zero_add]

/-! ## Chunking lemmas -/

theorem chunkListF_nil (n fuel : Nat) : chunkListF n fuel ([] : List α) = [] := by
  cases fuel <;> rfl

theorem chunkListF_succ_cons (n fuel : Nat) (x : α) (xs : List α) :
    chunkListF n (fuel + 1) (x :: xs) =
      (x :: xs.take (n - 1)) :: chunkListF n fuel (xs.drop (n - 1)) := rfl

theorem chunkListF_congr (n : Nat) : ∀ (fuel₁ : Nat) (l : List α) (fuel₂ : Nat),
    l.length ≤ fuel₁ → l.length ≤ fuel₂ → chunkListF n fuel₁ l = chunkListF n fuel₂ l := by
  intro fuel₁
  induction fuel₁ with
  | zero =>
    intro l fuel₂ h1 _
    have hl : l = [] := List.eq_nil_of_length_eq_zero (Nat.le_zero.mp h1)
    subst hl
    simp [chunkListF_nil]
  | succ f ih =>
    intro l fuel₂ h1 h2
    cases l with
    | nil => simp [chunkListF_nil]
    | cons x xs =>
      cases fuel₂ with
      | zero => simp at h2
      | succ f2 =>
        simp only [chunkListF_succ_cons]
        congr 1
        apply ih
        · have := List.length_drop (n - 1) xs
          simp only [List.length_cons] at h1
          omega
        · have := List.length_drop (n - 1) xs
          simp only [List.length_cons] at h2
          omega

/-- The recursion equation of the chunker. -/
theorem chunkList_cons (n : Nat) (x : α) (xs : List α) :
    chunkList n (x :: xs) = (x :: xs.take (n - 1)) :: chunkList n (xs.drop (n - 1)) := by
  simp only [chunkList, List.length_cons, chunkListF_succ_cons]
  congr 1
  apply chunkListF_congr
  · have := List.length_drop (n - 1) xs
    omega
  · exact le_refl _

theorem chunkList_flatten (n : Nat) : ∀ l : List α, (chunkList n l).flatten = l
  | [] => by simp [chunkList, chunkListF_nil]
  | x :: xs => by
    rw [chunkList_cons]
    simp only [List.flatten_cons]
    rw [chunkList_flatten n (xs.drop (n - 1))]
    simp [List.take_append_drop]
termination_by l => l.length
decreasing_by simp only [List.length_drop, List.length_cons]; omega

theorem length_le_of_mem_chunkList (n : Nat) (hn : 0 < n) :
    ∀ (l : List α), ∀ b ∈ chunkList n l, b.length ≤ n
  | [], b, hb => by simp [chunkList, chunkListF_nil] at hb
  | x :: xs, b, hb => by
    rw [chunkList_cons] at hb
    rcases List.mem_cons.mp hb with h | h
    · subst h
      have := List.length_take_le (n - 1) xs
      simp only [List.length_cons]
      omega
    · exact length_le_of_mem_chunkList n hn (xs.drop (n - 1)) b h
termination_by l => l.length
decreasing_by simp only [List.length_drop, List.length_cons]; omega

theorem chunkList_ne_nil (n : Nat) (x : α) (xs : List α) :
    chunkList n (x :: xs) ≠ [] := by
  rw [chunkList_cons]
  simp

theorem arrayAndChunk_flatten (items : List α) (n : Nat) (f : α → List Nat) :
    (Serialize.arrayAndChunk items n f).flatten = (items.map f).flatten := by
  have aux : ∀ cs : List (List α),
      ((cs.map (fun b => (b.map f).flatten)).flatten = (cs.flatten.map f).flatten) := by
    intro cs
    induction cs with
    | nil => simp
    | cons c cs ih => simp [List.map_append, List.flatten_append, ih]
  unfold Serialize.arrayAndChunk
  rw [aux, chunkList_flatten]

/-! ## Membership facts about the command groups -/

theorem mem_tokenIdCmds (sessionId : Nat) (ids : List (List Nat)) (c : Cmd)
    (h : c ∈ tokenIdCmds sessionId ids) :
    c.p2 = sessionId ∧ c.p1 = P1.ADD_TOKEN_IDS := by
  obtain ⟨p, _, rfl⟩ := List.mem_map.mp h
  exact ⟨rfl, rfl⟩

theorem mem_extensionCmds (sessionId : Nat) (ext : List Nat) (c : Cmd)
    (h : c ∈ extensionCmds sessionId ext) :
    c.p2 = sessionId ∧ c.p1 = P1.ADD_INPUT_BOX_CONTEXT_EXTENSION_CHUNK := by
  obtain ⟨p, _, rfl⟩ := List.mem_map.mp h
  exact ⟨rfl, rfl⟩

theorem mem_inputsCmds (sessionId : Nat) (boxes : List AttestedBox) (c : Cmd)
    (h : c ∈ inputsCmds sessionId boxes) :
    c.p2 = sessionId ∧
      (c.p1 = P1.ADD_INPUT_BOX_FRAME ∨ c.p1 = P1.ADD_INPUT_BOX_CONTEXT_EXTENSION_CHUNK) := by
  obtain ⟨g, hg, hcg⟩ := List.mem_flatten.mp h
  obtain ⟨box, _, rfl⟩ := List.mem_map.mp hg
  rcases List.mem_append.mp hcg with hf | he
  · obtain ⟨fr, _, rfl⟩ := List.mem_map.mp hf
    exact ⟨rfl, Or.inl rfl⟩
  · cases hext : box.extension with
    | none => rw [hext] at he; simp [inputExtCmds] at he
    | some e =>
      rw [hext] at he
      by_cases hlen : 0 < e.length
      · simp only [inputExtCmds, if_pos hlen] at he
        obtain ⟨h1, h2⟩ := mem_extensionCmds sessionId e c he
        exact ⟨h1, Or.inr h2⟩
      · simp only [inputExtCmds, if_neg hlen] at he
        simp at he

theorem mem_dataInputCmds (sessionId : Nat) (boxIds : List String) (c : Cmd)
    (h : c ∈ dataInputCmds sessionId boxIds) :
    c.p2 = sessionId ∧ c.p1 = P1.ADD_DATA_INPUTS := by
  obtain ⟨p, _, rfl⟩ := List.mem_map.mp h
  exact ⟨rfl, rfl⟩

theorem mem_seq (p q : Plan) (c : Cmd) (h : c ∈ (Plan.seq p q).1) : c ∈ p.1 ∨ c ∈ q.1 := by
  cases hp : p.2 with
  | some e => rw [Plan.seq, hp] at h; exact Or.inl h
  | none => rw [Plan.seq, hp] at h; exact List.mem_append.mp h

theorem mem_outputTreePlan (sessionId : Nat) (changeMap : ChangeMap) (network : Network)
    (addrOf : String → String) (box : BoxCandidate) (c : Cmd)
    (h : c ∈ (outputTreePlan sessionId changeMap network addrOf box).1) :
    c.p2 = sessionId ∧
      (c.p1 = P1.ADD_OUTPUT_BOX_MINERS_FEE_TREE ∨ c.p1 = P1.ADD_OUTPUT_BOX_CHANGE_TREE ∨
        c.p1 = P1.ADD_OUTPUT_BOX_ERGO_TREE_CHUNK) := by
  rw [outputTreePlan] at h
  by_cases hfee : Deserialize.hex box.ergoTree = MAINNET_MINER_FEE_TREE ∨
      Deserialize.hex box.ergoTree = TESTNET_FEE_TREE
  · rw [if_pos hfee] at h
    simp only [List.mem_singleton] at h
    subst h
    exact ⟨rfl, Or.inl rfl⟩
  · rw [if_neg hfee] at h
    by_cases hch : addrOf (Deserialize.hex box.ergoTree) = changeMap.address
    · rw [if_pos hch] at h
      cases hp : changeMap.path with
      | none => rw [hp] at h; simp at h
      | some p =>
        rw [hp] at h
        simp only [List.mem_singleton] at h
        subst h
        exact ⟨rfl, Or.inr (Or.inl rfl)⟩
    · rw [if_neg hch] at h
      obtain ⟨ch, _, rfl⟩ := List.mem_map.mp h
      exact ⟨rfl, Or.inr (Or.inr rfl)⟩

theorem mem_outputBoxPlan (sessionId : Nat) (changeMap : ChangeMap)
    (distinctTokenIdsStr : List String) (network : Network) (addrOf : String → String)
    (box : BoxCandidate) (c : Cmd)
    (h : c ∈ (outputBoxPlan sessionId changeMap distinctTokenIdsStr network addrOf box).1) :
    c.p2 = sessionId ∧ c.p1 ≠ P1.CONFIRM_AND_SIGN ∧ c.p1 ≠ P1.START_SIGNING := by
  rw [outputBoxPlan] at h
  rcases mem_seq _ _ _ h with h1 | h2
  · simp only [List.mem_singleton] at h1
    subst h1
    refine ⟨rfl, ?_, ?_⟩ <;> simp [outputStartCmd, P1.ADD_OUTPUT_BOX_START, P1.CONFIRM_AND_SIGN,
      P1.START_SIGNING]
  · rcases mem_seq _ _ _ h2 with h3 | h4
    · obtain ⟨hp2, hp1⟩ := mem_outputTreePlan sessionId changeMap network addrOf box c h3
      refine ⟨hp2, ?_, ?_⟩ <;>
        rcases hp1 with h | h | h <;>
          simp [h, P1.ADD_OUTPUT_BOX_MINERS_FEE_TREE, P1.ADD_OUTPUT_BOX_CHANGE_TREE,
            P1.ADD_OUTPUT_BOX_ERGO_TREE_CHUNK, P1.CONFIRM_AND_SIGN, P1.START_SIGNING]
    · rcases mem_seq _ _ _ h4 with h5 | h6
      · rw [outputTokensPlan] at h5
        by_cases ht : 0 < box.tokens.length
        · rw [if_pos ht] at h5
          cases hpay : tokensPayload distinctTokenIdsStr box.tokens with
          | error e => rw [hpay] at h5; simp at h5
          | ok payload =>
            rw [hpay] at h5
            simp only [List.mem_singleton] at h5
            subst h5
            refine ⟨rfl, ?_, ?_⟩ <;> simp [tokensCmd, P1.ADD_OUTPUT_BOX_TOKENS,
              P1.CONFIRM_AND_SIGN, P1.START_SIGNING]
        · rw [if_neg ht] at h5; simp at h5
      · rw [outputRegistersPlan] at h6
        by_cases hr : 0 < box.registers.length
        · rw [if_pos hr] at h6
          obtain ⟨ch, _, rfl⟩ := List.mem_map.mp h6
          refine ⟨rfl, ?_, ?_⟩ <;> simp [P1.ADD_OUTPUT_BOX_REGISTERS_CHUNK,
            P1.CONFIRM_AND_SIGN, P1.START_SIGNING]
        · rw [if_neg hr] at h6; simp at h6

theorem mem_outputsPlan (sessionId : Nat) (changeMap : ChangeMap)
    (distinctTokenIdsStr : List String) (network : Network) (addrOf : String → String) :
    ∀ (boxes : List BoxCandidate) (c : Cmd),
      c ∈ (outputsPlan sessionId changeMap distinctTokenIdsStr network addrOf boxes).1 →
      c.p2 = sessionId ∧ c.p1 ≠ P1.CONFIRM_AND_SIGN ∧ c.p1 ≠ P1.START_SIGNING
  | [], c, h => by simp [outputsPlan] at h
  | box :: rest, c, h => by
    rw [outputsPlan] at h
    rcases mem_seq _ _ _ h with h1 | h2
    · exact mem_outputBoxPlan sessionId changeMap distinctTokenIdsStr network addrOf box c h1
    · exact mem_outputsPlan sessionId changeMap distinctTokenIdsStr network addrOf rest c h2

end ErgoLedger

namespace ErgoLedger

/-! ## Distinct token ids table (modelled) and auth tokens -/

/-- Worker of the order-preserving de-duplication: keep an element when it
has not been seen before. -/
def dedupKeepFirstAux (seen : List String) : List String → List String
  | [] => []
  | x :: xs =>
    if x ∈ seen then dedupKeepFirstAux seen xs
    else x :: dedupKeepFirstAux (x :: seen) xs

/-- Order-preserving de-duplication, keeping the first occurrence of each
element. -/
def dedupKeepFirst (l : List String) : List String := dedupKeepFirstAux [] l

/-- Modelled from the spec: the Distinct Token Ids table of a session is the
order-preserving de-duplicated list of all token identifiers referenced by
any output; its construction is caller-side code not present in the sources
at hand (spec section 3). Ids are compared in their hex-string form, as in
sendOutputs. -/
def distinctTokenIdsOf (outputs : List BoxCandidate) : List String :=
  dedupKeepFirst ((outputs.map (fun b => b.tokens.map (fun t => t.id))).flatten)

/-- The index transmitted for a token: the position of its id in the table
(the JavaScript indexOf of addOutputBoxTokens, on the found path). -/
def tokenIndexIn (table : List String) (t : Token) : Nat :=
  (List.findIdx? (fun s => s = t.id) table).getD 0

/-- newAuthToken of ErgoApp (erg.ts): repeatedly draw
floor(random * 0xffffffff) + 1 until the value differs from the current
token. The successive floor values of the random draws are modelled by the
stream r; termination needs some draw to differ from the previous token. -/
def newAuthToken (r : Nat → Nat) (prev : Nat) (h : ∃ i, r i + 1 ≠ prev) : Nat :=
  r (Nat.find h) + 1

/-- The auth-token initialization of the ErgoApp constructor (erg.ts): the
supplied token is kept unless it is zero, in which case a fresh token is
generated at once. -/
def initAuthToken (r : Nat → Nat) (authToken : Nat) : Nat :=
  if authToken = 0 then newAuthToken r 0 ⟨0, Nat.succ_ne_zero (r 0)⟩ else authToken

/-- A device that accepts every command and always answers with the single
data byte 7 (so the session id of such a run is 7). -/
def okOracle : Oracle := fun _ => ⟨RC_OK, [7]⟩

/-- The byte form of the testnet miner-fee script. -/
def TESTNET_FEE_TREE_BYTES : List Nat := Serialize.hex TESTNET_FEE_TREE

/-! ## Table lemmas -/

theorem mem_dedupKeepFirstAux (a : String) :
    ∀ (l seen : List String), a ∈ dedupKeepFirstAux seen l ↔ (a ∈ l ∧ a ∉ seen) := by
  intro l
  induction l with
  | nil => intro seen; simp [dedupKeepFirstAux]
  | cons x xs ih =>
    intro seen
    by_cases hx : x ∈ seen
    · rw [dedupKeepFirstAux, if_pos hx, ih]
      constructor
      · rintro ⟨h1, h2⟩; exact ⟨List.mem_cons_of_mem x h1, h2⟩
      · rintro ⟨h1, h2⟩
        rcases List.mem_cons.mp h1 with rfl | h1
        · exact absurd hx h2
        · exact ⟨h1, h2⟩
    · rw [dedupKeepFirstAux, if_neg hx]
      constructor
      · intro hmem
        rcases List.mem_cons.mp hmem with rfl | hmem
        · exact ⟨List.mem_cons_self a xs, hx⟩
        · obtain ⟨h1, h2⟩ := (ih (x :: seen)).mp hmem
          refine ⟨List.mem_cons_of_mem x h1, fun hs => h2 (List.mem_cons_of_mem x hs)⟩
      · rintro ⟨h1, h2⟩
        rcases List.mem_cons.mp h1 with rfl | h1
        · exact List.mem_cons_self a _
        · by_cases hax : a = x
          · subst hax; exact List.mem_cons_self a _
          · refine List.mem_cons_of_mem x ((ih (x :: seen)).mpr ⟨h1, ?_⟩)
            intro hs
            rcases List.mem_cons.mp hs with h | h
            · exact hax h
            · exact h2 h

theorem mem_dedupKeepFirst (l : List String) (a : String) :
    a ∈ dedupKeepFirst l ↔ a ∈ l := by
  rw [dedupKeepFirst, mem_dedupKeepFirstAux]
  simp

theorem findIdx?_of_mem : ∀ (l : List String) (s : String), s ∈ l →
    ∃ i, List.findIdx? (fun x => x = s) l = some i ∧ l.get? i = some s := by
  intro l
  induction l with
  | nil => intro s h; simp at h
  | cons x xs ih =>
    intro s h
    by_cases hx : x = s
    · refine ⟨0, ?_, by simp [hx]⟩
      simp [List.findIdx?_cons, hx]
    · have hs : s ∈ xs := by
        rcases List.mem_cons.mp h with h1 | h1
        · exact absurd h1.symm hx
        · exact h1
      obtain ⟨i, hi, hg⟩ := ih s hs
      refine ⟨i + 1, ?_, by simpa using hg⟩
      simp [List.findIdx?_cons, hx, hi]

theorem tokensPayload_ok (table : List String) :
    ∀ tokens : List Token, (∀ tok ∈ tokens, tok.id ∈ table) →
      tokensPayload table tokens =
        .ok ((tokens.map (fun tok =>
          Serialize.uint32 (tokenIndexIn table tok) ++ Serialize.uint64 tok.amount)).flatten) := by
  intro tokens
  induction tokens with
  | nil => intro _; simp [tokensPayload]
  | cons t ts ih =>
    intro hmem
    obtain ⟨i, hi, _⟩ := findIdx?_of_mem table t.id (hmem t (by simp))
    have hrest := ih (fun tok htok => hmem tok (by simp [htok]))
    rw [tokensPayload, hi, hrest]
    simp [tokenIndexIn, hi]

theorem tokenId_mem_table (outputs : List BoxCandidate) (box : BoxCandidate)
    (tok : Token) (hbox : box ∈ outputs) (htok : tok ∈ box.tokens) :
    tok.id ∈ distinctTokenIdsOf outputs := by
  rw [distinctTokenIdsOf, mem_dedupKeepFirst]
  refine List.mem_flatten.mpr ⟨box.tokens.map (fun t => t.id), ?_, ?_⟩
  · exact List.mem_map.mpr ⟨box, hbox, rfl⟩
  · exact List.mem_map.mpr ⟨tok, htok, rfl⟩

end ErgoLedger

namespace ErgoLedger

/-! ## Decomposition of the full plan -/

theorem fullPlan_fst (device : Oracle) (tx : AttestedTx) (signPath : List Nat)
    (network : Network) (authToken : Option Nat) (addrOf : String → String) :
    (fullPlan device tx signPath network authToken addrOf).1 =
      headerCmd signPath authToken :: (bodyPlan (sessionIdOf device) tx network addrOf).1 := by
  simp [fullPlan, Plan.seq]

theorem bodyPlan_fst_of_none (sessionId : Nat) (tx : AttestedTx) (network : Network)
    (addrOf : String → String)
    (h : (outputsPlan sessionId tx.changeMap (tx.distinctTokenIds.map Deserialize.hex)
        network addrOf tx.outputs).2 = none) :
    (bodyPlan sessionId tx network addrOf).1 =
      startTxCmd sessionId tx tx.distinctTokenIds.length ::
        (tokenIdCmds sessionId tx.distinctTokenIds ++
          (inputsCmds sessionId tx.inputs ++
            (dataInputCmds sessionId tx.dataInputs ++
              ((outputsPlan sessionId tx.changeMap (tx.distinctTokenIds.map Deserialize.hex)
                  network addrOf tx.outputs).1 ++ [confirmCmd sessionId])))) := by
  simp [bodyPlan, Plan.seq, h, List.append_assoc]

theorem bodyPlan_fst_of_some (sessionId : Nat) (tx : AttestedTx) (network : Network)
    (addrOf : String → String) (e : SignTxError)
    (h : (outputsPlan sessionId tx.changeMap (tx.distinctTokenIds.map Deserialize.hex)
        network addrOf tx.outputs).2 = some e) :
    (bodyPlan sessionId tx network addrOf).1 =
      startTxCmd sessionId tx tx.distinctTokenIds.length ::
        (tokenIdCmds sessionId tx.distinctTokenIds ++
          (inputsCmds sessionId tx.inputs ++
            (dataInputCmds sessionId tx.dataInputs ++
              (outputsPlan sessionId tx.changeMap (tx.distinctTokenIds.map Deserialize.hex)
                  network addrOf tx.outputs).1))) := by
  simp [bodyPlan, Plan.seq, h, List.append_assoc]

theorem bodyPlan_snd (sessionId : Nat) (tx : AttestedTx) (network : Network)
    (addrOf : String → String) :
    (bodyPlan sessionId tx network addrOf).2 =
      match (outputsPlan sessionId tx.changeMap (tx.distinctTokenIds.map Deserialize.hex)
          network addrOf tx.outputs).2 with
      | some e => some e
      | none => none := by
  cases h : (outputsPlan sessionId tx.changeMap (tx.distinctTokenIds.map Deserialize.hex)
      network addrOf tx.outputs).2 <;>
    simp [bodyPlan, Plan.seq, h]

theorem fullPlan_snd (device : Oracle) (tx : AttestedTx) (signPath : List Nat)
    (network : Network) (authToken : Option Nat) (addrOf : String → String) :
    (fullPlan device tx signPath network authToken addrOf).2 =
      (bodyPlan (sessionIdOf device) tx network addrOf).2 := by
  simp [fullPlan, Plan.seq]

theorem outputBoxPlan_fst_ne_nil (sessionId : Nat) (changeMap : ChangeMap)
    (distinctTokenIdsStr : List String) (network : Network) (addrOf : String → String)
    (box : BoxCandidate) :
    (outputBoxPlan sessionId changeMap distinctTokenIdsStr network addrOf box).1 ≠ [] := by
  simp [outputBoxPlan, Plan.seq]

theorem outputsPlan_fst_ne_nil_of_some (sessionId : Nat) (changeMap : ChangeMap)
    (distinctTokenIdsStr : List String) (network : Network) (addrOf : String → String) :
    ∀ (boxes : List BoxCandidate) (e : SignTxError),
      (outputsPlan sessionId changeMap distinctTokenIdsStr network addrOf boxes).2 = some e →
      (outputsPlan sessionId changeMap distinctTokenIdsStr network addrOf boxes).1 ≠ []
  | [], e, h => by simp [outputsPlan] at h
  | box :: rest, e, h => by
    rw [outputsPlan]
    cases hb : (outputBoxPlan sessionId changeMap distinctTokenIdsStr network addrOf box).2 with
    | some e' =>
      rw [Plan.seq, hb]
      exact outputBoxPlan_fst_ne_nil sessionId changeMap distinctTokenIdsStr network addrOf box
    | none =>
      rw [Plan.seq, hb]
      intro hfst
      have h1 : (outputBoxPlan sessionId changeMap distinctTokenIdsStr network addrOf box).1 = [] :=
        (List.append_eq_nil.mp hfst).1
      exact outputBoxPlan_fst_ne_nil sessionId changeMap distinctTokenIdsStr network addrOf box h1

theorem mem_bodyPlan (sessionId : Nat) (tx : AttestedTx) (network : Network)
    (addrOf : String → String) (c : Cmd)
    (h : c ∈ (bodyPlan sessionId tx network addrOf).1) :
    c.p2 = sessionId ∧ c.p1 ≠ P1.START_SIGNING := by
  rw [bodyPlan] at h
  rcases mem_seq _ _ _ h with h1 | h2
  · rcases mem_seq _ _ _ h1 with h3 | h4
    · rcases mem_seq _ _ _ h3 with h5 | h6
      · rcases mem_seq _ _ _ h5 with h7 | h8
        · rcases mem_seq _ _ _ h7 with h9 | h10
          · simp only [List.mem_singleton] at h9
            subst h9
            exact ⟨rfl, by simp [startTxCmd, P1.START_TRANSACTION, P1.START_SIGNING]⟩
          · obtain ⟨hp2, hp1⟩ := mem_tokenIdCmds sessionId tx.distinctTokenIds c h10
            exact ⟨hp2, by simp [hp1, P1.ADD_TOKEN_IDS, P1.START_SIGNING]⟩
        · obtain ⟨hp2, hp1⟩ := mem_inputsCmds sessionId tx.inputs c h8
          refine ⟨hp2, ?_⟩
          rcases hp1 with h | h <;>
            simp [h, P1.ADD_INPUT_BOX_FRAME, P1.ADD_INPUT_BOX_CONTEXT_EXTENSION_CHUNK,
              P1.START_SIGNING]
      · obtain ⟨hp2, hp1⟩ := mem_dataInputCmds sessionId tx.dataInputs c h6
        exact ⟨hp2, by simp [hp1, P1.ADD_DATA_INPUTS, P1.START_SIGNING]⟩
    · obtain ⟨hp2, _, hstart⟩ := mem_outputsPlan sessionId tx.changeMap
        (tx.distinctTokenIds.map Deserialize.hex) network addrOf tx.outputs c h4
      exact ⟨hp2, hstart⟩
  · simp only [List.mem_singleton] at h2
    subst h2
    exact ⟨rfl, by simp [confirmCmd, P1.CONFIRM_AND_SIGN, P1.START_SIGNING]⟩

end ErgoLedger

namespace ErgoLedger

/-! ## Claims -/

set_option maxRecDepth 40000

/-- C1 (amended): for every output box successfully processed by
signTx/sendOutputs (non-empty script, change path available), exactly one of
the three tree sub-command kinds is issued, chosen in strict priority order:
the output is classified as a Fee Output if and only if its script bytes
equal either of the two hard-coded miner-fee script constants (mainnet or
testnet), irrespective of the session's network — the fee check is evaluated
first, so such a script is never classified as change even if its derived
address matches the change address — and a Fee Output's transmitted payload
is the one-byte network tag, containing no script bytes. -/
theorem C1_fee_classification (sessionId : Nat) (changeMap : ChangeMap) (network : Network)
    (addrOf : String → String) (box : BoxCandidate)
    (hne : box.ergoTree ≠ []) (hcp : changeMap.path ≠ none) :
    (outputTreePlan sessionId changeMap network addrOf box).2 = none ∧
    (outputTreePlan sessionId changeMap network addrOf box).1 ≠ [] ∧
    ((∀ c ∈ (outputTreePlan sessionId changeMap network addrOf box).1,
        c.p1 = P1.ADD_OUTPUT_BOX_MINERS_FEE_TREE) ∨
     (∀ c ∈ (outputTreePlan sessionId changeMap network addrOf box).1,
        c.p1 = P1.ADD_OUTPUT_BOX_CHANGE_TREE) ∨
     (∀ c ∈ (outputTreePlan sessionId changeMap network addrOf box).1,
        c.p1 = P1.ADD_OUTPUT_BOX_ERGO_TREE_CHUNK)) ∧
    ((∃ c ∈ (outputTreePlan sessionId changeMap network addrOf box).1,
        c.p1 = P1.ADD_OUTPUT_BOX_MINERS_FEE_TREE) ↔
      (Deserialize.hex box.ergoTree = MAINNET_MINER_FEE_TREE ∨
        Deserialize.hex box.ergoTree = TESTNET_FEE_TREE)) ∧
    ((Deserialize.hex box.ergoTree = MAINNET_MINER_FEE_TREE ∨
        Deserialize.hex box.ergoTree = TESTNET_FEE_TREE) →
      outputTreePlan sessionId changeMap network addrOf box =
        ([feeCmd sessionId network], none)) ∧
    (feeCmd sessionId network).data = Serialize.uint8 network := by
  by_cases hfee : Deserialize.hex box.ergoTree = MAINNET_MINER_FEE_TREE ∨
      Deserialize.hex box.ergoTree = TESTNET_FEE_TREE
  · have hplan : outputTreePlan sessionId changeMap network addrOf box =
        ([feeCmd sessionId network], none) := by
      simp only [outputTreePlan, if_pos hfee]
    refine ⟨by simp [hplan], by simp [hplan], Or.inl ?_, ?_, fun _ => hplan, rfl⟩
    · intro c hc
      rw [hplan] at hc
      simp only [List.mem_singleton] at hc
      subst hc
      rfl
    · constructor
      · intro _; exact hfee
      · intro _; exact ⟨feeCmd sessionId network, by simp [hplan], rfl⟩
  · by_cases hch : addrOf (Deserialize.hex box.ergoTree) = changeMap.address
    · cases hpath : changeMap.path with
      | none => exact absurd hpath hcp
      | some p =>
        have hplan : outputTreePlan sessionId changeMap network addrOf box =
            ([changeCmd sessionId p], none) := by
          simp only [outputTreePlan, if_neg hfee, if_pos hch, hpath]
        refine ⟨by simp [hplan], by simp [hplan], Or.inr (Or.inl ?_), ?_,
          fun hf => absurd hf hfee, rfl⟩
        · intro c hc
          rw [hplan] at hc
          simp only [List.mem_singleton] at hc
          subst hc
          rfl
        · constructor
          · rintro ⟨c, hc, hp1⟩
            rw [hplan] at hc
            simp only [List.mem_singleton] at hc
            subst hc
            simp [changeCmd, P1.ADD_OUTPUT_BOX_CHANGE_TREE,
              P1.ADD_OUTPUT_BOX_MINERS_FEE_TREE] at hp1
          · intro hf; exact absurd hf hfee
    · have hplan : outputTreePlan sessionId changeMap network addrOf box =
          (ergoTreeChunkCmds sessionId box.ergoTree, none) := by
        simp only [outputTreePlan, if_neg hfee, if_neg hch]
      obtain ⟨x, xs, hxs⟩ : ∃ x xs, box.ergoTree = x :: xs := by
        cases hbe : box.ergoTree with
        | nil => exact absurd hbe hne
        | cons x xs => exact ⟨x, xs, rfl⟩
      refine ⟨by simp [hplan], ?_, Or.inr (Or.inr ?_), ?_, fun hf => absurd hf hfee, rfl⟩
      · rw [hplan]
        simp only [ergoTreeChunkCmds, hxs, ne_eq, List.map_eq_nil_iff]
        exact chunkList_ne_nil MAX_DATA_CHUNK x xs
      · intro c hc
        rw [hplan] at hc
        obtain ⟨ch, _, rfl⟩ := List.mem_map.mp hc
        rfl
      · constructor
        · rintro ⟨c, hc, hp1⟩
          rw [hplan] at hc
          obtain ⟨ch, _, rfl⟩ := List.mem_map.mp hc
          simp [P1.ADD_OUTPUT_BOX_ERGO_TREE_CHUNK,
            P1.ADD_OUTPUT_BOX_MINERS_FEE_TREE] at hp1
        · intro hf; exact absurd hf hfee

/-- C1, witness: evaluation of the amended classification at a concrete
external output. -/
theorem C1_fee_classification_witness :
    (([0] : List Nat) ≠ [] ∧ (some [44] : Option (List Nat)) ≠ none) ∧
    ((outputTreePlan 7 ⟨"A", some [44]⟩ 0 (fun _ => "B")
        ⟨1, [0], 1, [], []⟩).2 = none ∧
     (outputTreePlan 7 ⟨"A", some [44]⟩ 0 (fun _ => "B")
        ⟨1, [0], 1, [], []⟩).1 ≠ [] ∧
     ((∀ c ∈ (outputTreePlan 7 ⟨"A", some [44]⟩ 0 (fun _ => "B")
          ⟨1, [0], 1, [], []⟩).1, c.p1 = P1.ADD_OUTPUT_BOX_MINERS_FEE_TREE) ∨
      (∀ c ∈ (outputTreePlan 7 ⟨"A", some [44]⟩ 0 (fun _ => "B")
          ⟨1, [0], 1, [], []⟩).1, c.p1 = P1.ADD_OUTPUT_BOX_CHANGE_TREE) ∨
      (∀ c ∈ (outputTreePlan 7 ⟨"A", some [44]⟩ 0 (fun _ => "B")
          ⟨1, [0], 1, [], []⟩).1, c.p1 = P1.ADD_OUTPUT_BOX_ERGO_TREE_CHUNK)) ∧
     ((∃ c ∈ (outputTreePlan 7 ⟨"A", some [44]⟩ 0 (fun _ => "B")
          ⟨1, [0], 1, [], []⟩).1, c.p1 = P1.ADD_OUTPUT_BOX_MINERS_FEE_TREE) ↔
       (Deserialize.hex ([0] : List Nat) = MAINNET_MINER_FEE_TREE ∨
         Deserialize.hex ([0] : List Nat) = TESTNET_FEE_TREE)) ∧
     ((Deserialize.hex ([0] : List Nat) = MAINNET_MINER_FEE_TREE ∨
         Deserialize.hex ([0] : List Nat) = TESTNET_FEE_TREE) →
       outputTreePlan 7 ⟨"A", some [44]⟩ 0 (fun _ => "B") ⟨1, [0], 1, [], []⟩ =
         ([feeCmd 7 0], none)) ∧
     (feeCmd 7 0).data = Serialize.uint8 0) :=
  ⟨⟨by decide, by decide⟩,
    C1_fee_classification 7 ⟨"A", some [44]⟩ 0 (fun _ => "B") ⟨1, [0], 1, [], []⟩
      (by decide) (by decide)⟩

/-- C1, counterexample: in a session whose network tag is the mainnet tag 0,
an output whose script is the testnet miner-fee script is still given the
miner-fee tree command, although its script differs from the mainnet fee
constant — the fee check does not depend on the session's network, refuting
the claim that an output is a Fee Output if and only if its script equals
the constant specific to the session's network. -/
theorem C1_counterexample :
    (sendOutputs okOracle 7 [⟨1000000, TESTNET_FEE_TREE_BYTES, 100, [], []⟩]
        ⟨"changeAddr", some [44]⟩ [] 0 (fun _ => "otherAddr") []).1 =
      [outputStartCmd 7 ⟨1000000, TESTNET_FEE_TREE_BYTES, 100, [], []⟩, feeCmd 7 0] ∧
    Deserialize.hex TESTNET_FEE_TREE_BYTES ≠ MAINNET_MINER_FEE_TREE := by
  constructor
  · decide
  · decide

/-- C2: for every output whose script is not a miner-fee script and whose
derived address string-equals the change descriptor's address (with the
change path present), the tree payload transmitted to the device is exactly
the serialized change derivation path, and the output's raw script bytes are
never transmitted for that output's tree step. -/
theorem C2_change_tree (sessionId : Nat) (changeMap : ChangeMap) (network : Network)
    (addrOf : String → String) (box : BoxCandidate) (p : List Nat)
    (hfee : ¬(Deserialize.hex box.ergoTree = MAINNET_MINER_FEE_TREE ∨
        Deserialize.hex box.ergoTree = TESTNET_FEE_TREE))
    (haddr : addrOf (Deserialize.hex box.ergoTree) = changeMap.address)
    (hp : changeMap.path = some p) :
    outputTreePlan sessionId changeMap network addrOf box =
      ([changeCmd sessionId p], none) ∧
    (changeCmd sessionId p).data = Serialize.bip32Path p ∧
    ∀ c ∈ (outputTreePlan sessionId changeMap network addrOf box).1,
      c.data = Serialize.bip32Path p ∧ c.p1 = P1.ADD_OUTPUT_BOX_CHANGE_TREE ∧
        c.p1 ≠ P1.ADD_OUTPUT_BOX_ERGO_TREE_CHUNK := by
  have hplan : outputTreePlan sessionId changeMap network addrOf box =
      ([changeCmd sessionId p], none) := by
    simp only [outputTreePlan, if_neg hfee, if_pos haddr, hp]
  refine ⟨hplan, rfl, ?_⟩
  intro c hc
  rw [hplan] at hc
  simp only [List.mem_singleton] at hc
  subst hc
  exact ⟨rfl, rfl, by simp [changeCmd, P1.ADD_OUTPUT_BOX_CHANGE_TREE,
    P1.ADD_OUTPUT_BOX_ERGO_TREE_CHUNK]⟩

/-- C2, witness: evaluation at a concrete change output. -/
theorem C2_change_tree_witness :
    (¬(Deserialize.hex ([0] : List Nat) = MAINNET_MINER_FEE_TREE ∨
        Deserialize.hex ([0] : List Nat) = TESTNET_FEE_TREE)) ∧
    ((fun _ : String => "A") (Deserialize.hex ([0] : List Nat)) = "A") ∧
    (outputTreePlan 7 ⟨"A", some [44, 1]⟩ 0 (fun _ => "A") ⟨1, [0], 1, [], []⟩ =
      ([changeCmd 7 [44, 1]], none)) ∧
    (changeCmd 7 [44, 1]).data = Serialize.bip32Path [44, 1] :=
  ⟨by decide, rfl,
    (C2_change_tree 7 ⟨"A", some [44, 1]⟩ 0 (fun _ => "A") ⟨1, [0], 1, [], []⟩ [44, 1]
      (by decide) rfl rfl).1,
    (C2_change_tree 7 ⟨"A", some [44, 1]⟩ 0 (fun _ => "A") ⟨1, [0], 1, [], []⟩ [44, 1]
      (by decide) rfl rfl).2.1⟩

end ErgoLedger

namespace ErgoLedger

/-- C10: for every attested input, the driver forwards the input's frames in
order and then issues context-extension commands only when the extension
buffer is both defined and of non-zero length; an extension that is present
but empty produces no extension command at all. -/
theorem C10_input_extension (sessionId : Nat) (box : AttestedBox) :
    ((inputBoxCmds sessionId box).take box.frames.length =
        box.frames.map (frameCmd sessionId)) ∧
    ((∃ c ∈ inputBoxCmds sessionId box,
        c.p1 = P1.ADD_INPUT_BOX_CONTEXT_EXTENSION_CHUNK) ↔
      ∃ ext, box.extension = some ext ∧ ext ≠ []) ∧
    (box.extension = some [] →
      inputBoxCmds sessionId box = box.frames.map (frameCmd sessionId)) ∧
    (∀ (device : Oracle) (t : List Cmd),
        sendInputs device sessionId [box] t = execCmds device (inputBoxCmds sessionId box) t) := by
  refine ⟨?_, ⟨?_, ?_⟩, ?_, ?_⟩
  · rw [inputBoxCmds,
      show box.frames.length = (box.frames.map (frameCmd sessionId)).length from
        (List.length_map _ _).symm,
      List.take_left]
  · rintro ⟨c, hc, hp1⟩
    rcases List.mem_append.mp hc with hf | he
    · obtain ⟨fr, _, rfl⟩ := List.mem_map.mp hf
      simp [frameCmd, P1.ADD_INPUT_BOX_FRAME, P1.ADD_INPUT_BOX_CONTEXT_EXTENSION_CHUNK] at hp1
    · cases hext : box.extension with
      | none => rw [hext] at he; simp [inputExtCmds] at he
      | some e =>
        rw [hext] at he
        by_cases hlen : 0 < e.length
        · refine ⟨e, rfl, ?_⟩
          intro hnil
          rw [hnil] at hlen
          simp at hlen
        · simp only [inputExtCmds, if_neg hlen] at he
          simp at he
  · rintro ⟨ext, hext, hne⟩
    obtain ⟨x, xs, rfl⟩ : ∃ x xs, ext = x :: xs := by
      cases ext with
      | nil => exact absurd rfl hne
      | cons x xs => exact ⟨x, xs, rfl⟩
    cases hcs : chunkList MAX_DATA_CHUNK (x :: xs) with
    | nil => exact absurd hcs (chunkList_ne_nil MAX_DATA_CHUNK x xs)
    | cons c0 rest =>
      refine ⟨⟨COMMAND_SIGN_TX, P1.ADD_INPUT_BOX_CONTEXT_EXTENSION_CHUNK, sessionId, c0⟩,
        ?_, rfl⟩
      rw [inputBoxCmds, hext]
      refine List.mem_append.mpr (Or.inr ?_)
      simp only [inputExtCmds, List.length_cons, if_pos (Nat.succ_pos xs.length)]
      rw [extensionCmds, hcs]
      simp
  · intro hext
    rw [inputBoxCmds, hext]
    simp [inputExtCmds]
  · intro device t
    rw [sendInputs_eq]
    simp [inputsCmds]

/-- C10, witness: evaluation at an input with two frames and an empty (but
present) extension. -/
theorem C10_input_extension_witness :
    ((⟨[[1], [2]], some []⟩ : AttestedBox).extension = some []) ∧
    inputBoxCmds 7 ⟨[[1], [2]], some []⟩ = [[1], [2]].map (frameCmd 7) :=
  ⟨rfl, (C10_input_extension 7 ⟨[[1], [2]], some []⟩).2.2.1 rfl⟩

/-- C5: count-bounded chunking with the protocol constant 7 (used for
distinct token ids and data inputs): every packet is the concatenation of
the encodings of one whole batch of at most 7 consecutive items, the batches
partition the item list in order (so no item is split across a packet
boundary and concatenating all packets reconstructs the concatenation of the
per-item encodings), and an empty input list produces zero packets, hence
zero commands of that kind. -/
theorem C5_count_chunking {α : Type} (items : List α) (f : α → List Nat) :
    ((chunkList 7 items).flatten = items) ∧
    (∀ batch ∈ chunkList 7 items, batch.length ≤ 7) ∧
    (∀ packet ∈ Serialize.arrayAndChunk items 7 f,
        ∃ batch ∈ chunkList 7 items, packet = (batch.map f).flatten) ∧
    ((Serialize.arrayAndChunk items 7 f).flatten = (items.map f).flatten) ∧
    (∀ (device : Oracle) (sessionId : Nat) (t : List Cmd),
        sendDistinctTokensIds device sessionId [] t = (t, .ok ()) ∧
        sendDataInputs device sessionId [] t = (t, .ok ())) := by
  refine ⟨chunkList_flatten 7 items, ?_, ?_, arrayAndChunk_flatten items 7 f, ?_⟩
  · exact fun batch hb => length_le_of_mem_chunkList 7 (by omega) items batch hb
  · intro packet hp
    obtain ⟨batch, hb, rfl⟩ := List.mem_map.mp hp
    exact ⟨batch, hb, rfl⟩
  · intro device sessionId t
    constructor
    · rfl
    · simp [sendDataInputs, dataInputCmds, Serialize.arrayAndChunk, chunkList, chunkListF, execCmds,
        M.pure]

/-- C5, witness: evaluation of the chunking properties at a concrete
nine-element list. -/
theorem C5_count_chunking_witness :
    ((chunkList 7 [1, 2, 3, 4, 5, 6, 7, 8, 9]).flatten = [1, 2, 3, 4, 5, 6, 7, 8, 9]) ∧
    (∀ batch ∈ chunkList 7 [1, 2, 3, 4, 5, 6, 7, 8, 9], batch.length ≤ 7) ∧
    ((Serialize.arrayAndChunk [1, 2, 3, 4, 5, 6, 7, 8, 9] 7 (fun n => [n, n])).flatten =
      ([1, 2, 3, 4, 5, 6, 7, 8, 9].map (fun n => [n, n])).flatten) :=
  ⟨(C5_count_chunking [1, 2, 3, 4, 5, 6, 7, 8, 9] (fun n => [n, n])).1,
   (C5_count_chunking [1, 2, 3, 4, 5, 6, 7, 8, 9] (fun n => [n, n])).2.1,
   (C5_count_chunking [1, 2, 3, 4, 5, 6, 7, 8, 9] (fun n => [n, n])).2.2.2.1⟩

/-- C9: every auth token produced by the generator is a non-zero 32-bit
value distinct from the immediately preceding token; a freshly generated
value equal to the previous token is retried rather than rejected as fatal;
and constructing the app with auth token 0 immediately replaces it with a
generated non-zero token. The floor values of the successive random draws
are the stream r, each below 0xffffffff as Math.random is below one. -/
theorem C9_auth_token (r : Nat → Nat) (prev : Nat)
    (hr : ∀ i, r i ≤ 0xfffffffe) (h : ∃ i, r i + 1 ≠ prev) :
    (0 < newAuthToken r prev h ∧ newAuthToken r prev h ≤ 0xffffffff ∧
      newAuthToken r prev h ≠ prev) ∧
    (r 0 + 1 = prev → r 1 + 1 ≠ prev → newAuthToken r prev h = r 1 + 1) ∧
    (0 < initAuthToken r 0 ∧ initAuthToken r 0 ≤ 0xffffffff) := by
  refine ⟨⟨Nat.succ_pos _, ?_, Nat.find_spec h⟩, ?_, ?_, ?_⟩
  · have := hr (Nat.find h)
    simp only [newAuthToken]
    omega
  · intro h0 h1
    have hfind : Nat.find h = 1 := by
      rw [Nat.find_eq_iff]
      refine ⟨h1, ?_⟩
      intro m hm
      have hm0 : m = 0 := by omega
      subst hm0
      simp [h0]
    simp [newAuthToken, hfind]
  · rw [initAuthToken, if_pos rfl]
    exact Nat.succ_pos _
  · rw [initAuthToken, if_pos rfl]
    have := hr (Nat.find (⟨0, Nat.succ_ne_zero (r 0)⟩ : ∃ i, r i + 1 ≠ 0))
    simp only [newAuthToken]
    omega

/-- C9, witness: a first draw colliding with the previous token 5 is
retried, and the second draw yields the token 6. -/
theorem C9_auth_token_witness :
    ((fun i : Nat => if i = 0 then 4 else 5) 0 + 1 = 5) ∧
    ((fun i : Nat => if i = 0 then 4 else 5) 1 + 1 ≠ 5) ∧
    newAuthToken (fun i : Nat => if i = 0 then 4 else 5) 5 ⟨1, by decide⟩ = 6 ∧
    0 < initAuthToken (fun i : Nat => if i = 0 then 4 else 5) 0 :=
  ⟨by decide, by decide,
    (C9_auth_token (fun i : Nat => if i = 0 then 4 else 5) 5
      (fun i => by by_cases hi : i = 0 <;> simp [hi])
      ⟨1, by decide⟩).2.1 (by decide) (by decide),
    (C9_auth_token (fun i : Nat => if i = 0 then 4 else 5) 5
      (fun i => by by_cases hi : i = 0 <;> simp [hi])
      ⟨1, by decide⟩).2.2.1⟩

end ErgoLedger

namespace ErgoLedger

/-- C6: the session id is the first byte of the start-signing response, and
every subsequent command of the signing session carries that same unchanged
session id as its P2 scoping parameter. -/
theorem C6_session_id (device : Oracle) (tx : AttestedTx) (signPath : List Nat)
    (network : Network) (authToken : Option Nat) (addrOf : String → String) :
    (∃ rest, (signTxRun device tx signPath network authToken addrOf).1 =
        headerCmd signPath authToken :: rest ∧
      ∀ c ∈ rest, c.p2 = sessionIdOf device) ∧
    ((device 0).code = RC_OK →
      sendHeader device signPath authToken [] =
        ([headerCmd signPath authToken], .ok (sessionIdOf device))) := by
  constructor
  · rw [signTxRun_char]
    cases hf : firstFail device 0
        (fullPlan device tx signPath network authToken addrOf).1.length with
    | none =>
      refine ⟨(bodyPlan (sessionIdOf device) tx network addrOf).1, ?_, ?_⟩
      · simp only [fullPlan_fst]
      · exact fun c hc => (mem_bodyPlan (sessionIdOf device) tx network addrOf c hc).1
    | some k =>
      refine ⟨(bodyPlan (sessionIdOf device) tx network addrOf).1.take k, ?_, ?_⟩
      · simp only [fullPlan_fst, List.take_succ_cons]
      · exact fun c hc =>
          (mem_bodyPlan (sessionIdOf device) tx network addrOf c (List.mem_of_mem_take hc)).1
  · intro h0
    simp [sendHeader, bind_eq_M_bind, pure_eq_M_pure, M.bind, M.pure, devSend, h0, sessionIdOf]

/-- C6, witness: a concrete run whose second command carries the session id
7 answered by the device to the first command. -/
theorem C6_session_id_witness :
    (okOracle 0).code = RC_OK ∧
    sendHeader okOracle [44] none [] = ([headerCmd [44] none], .ok (sessionIdOf okOracle)) :=
  ⟨by decide,
    (C6_session_id okOracle ⟨[], [], [], [], ⟨"a", some [44]⟩⟩ [44] 0 none
      (fun _ => "x")).2 (by decide)⟩

/-- C7: commands are issued strictly sequentially in the fixed order
start-signing, start-transaction, token-id chunks, input frames and
extensions, data-input chunks, output sub-commands, confirm-and-sign (in
particular every token-id chunk precedes every output command); the trace of
any run is a prefix of this plan; every sent command except possibly the
last was answered with success; and a device rejection is always located at
the last command sent — the driver aborts at the failing step and issues no
later command. -/
theorem C7_order_and_abort (device : Oracle) (tx : AttestedTx) (signPath : List Nat)
    (network : Network) (authToken : Option Nat) (addrOf : String → String)
    (hErr : (outputsPlan (sessionIdOf device) tx.changeMap
        (tx.distinctTokenIds.map Deserialize.hex) network addrOf tx.outputs).2 = none) :
    (fullPlan device tx signPath network authToken addrOf).1 =
      headerCmd signPath authToken ::
        startTxCmd (sessionIdOf device) tx tx.distinctTokenIds.length ::
          (tokenIdCmds (sessionIdOf device) tx.distinctTokenIds ++
            (inputsCmds (sessionIdOf device) tx.inputs ++
              (dataInputCmds (sessionIdOf device) tx.dataInputs ++
                ((outputsPlan (sessionIdOf device) tx.changeMap
                    (tx.distinctTokenIds.map Deserialize.hex) network addrOf tx.outputs).1 ++
                  [confirmCmd (sessionIdOf device)])))) ∧
    (∃ k, k ≤ (fullPlan device tx signPath network authToken addrOf).1.length ∧
      (signTxRun device tx signPath network authToken addrOf).1 =
        (fullPlan device tx signPath network authToken addrOf).1.take k) ∧
    (∀ j, j + 1 < (signTxRun device tx signPath network authToken addrOf).1.length →
      (device j).code = RC_OK) ∧
    (∀ code, (signTxRun device tx signPath network authToken addrOf).2 =
        .error (.deviceRejected code) →
      (signTxRun device tx signPath network authToken addrOf).1 ≠ [] ∧
      (device ((signTxRun device tx signPath network authToken addrOf).1.length - 1)).code =
        code ∧ code ≠ RC_OK) := by
  refine ⟨?_, ?_⟩
  · rw [fullPlan_fst, bodyPlan_fst_of_none (sessionIdOf device) tx network addrOf hErr]
  rw [signTxRun_char]
  cases hf : firstFail device 0
      (fullPlan device tx signPath network authToken addrOf).1.length with
  | none =>
    dsimp only
    refine ⟨⟨(fullPlan device tx signPath network authToken addrOf).1.length, le_refl _,
      (List.take_length _).symm⟩, ?_, ?_⟩
    · intro j hj
      have := firstFail_none_ok device 0 _ hf j (by omega)
      simpa using this
    · intro code hcode
      have h2 : (fullPlan device tx signPath network authToken addrOf).2 = none := by
        rw [fullPlan_snd, bodyPlan_snd, hErr]
      rw [h2] at hcode
      simp at hcode
  | some k =>
    dsimp only
    obtain ⟨hk, hcode, hok⟩ := firstFail_some_spec device 0 _ k hf
    have hlen : ((fullPlan device tx signPath network authToken addrOf).1.take (k + 1)).length =
        k + 1 := by
      rw [List.length_take]
      omega
    refine ⟨⟨k + 1, by omega, rfl⟩, ?_, ?_⟩
    · intro j hj
      rw [hlen] at hj
      have := hok j (by omega)
      simpa using this
    · intro code hc
      simp only [Except.error.injEq, SignTxError.deviceRejected.injEq] at hc
      subst hc
      refine ⟨?_, ?_, ?_⟩
      · intro hnil
        rw [hnil] at hlen
        simp at hlen
      · rw [hlen]
        simp
      · simpa using hcode

/-- The transaction used to evaluate C7: one attested input with one frame,
one data input, one external output, no tokens. -/
def txC7 : AttestedTx :=
  ⟨[⟨[[9, 9]], none⟩], ["aabb"], [⟨5, [0, 1], 10, [], []⟩], [], ⟨"chg", some [44]⟩⟩

/-- C7, witness: the order and prefix properties evaluated on a concrete
all-accepting run. -/
theorem C7_order_and_abort_witness :
    ((outputsPlan (sessionIdOf okOracle) txC7.changeMap
        (txC7.distinctTokenIds.map Deserialize.hex) 0 (fun _ => "other") txC7.outputs).2 =
      none) ∧
    (∃ k, k ≤ (fullPlan okOracle txC7 [44] 0 none (fun _ => "other")).1.length ∧
      (signTxRun okOracle txC7 [44] 0 none (fun _ => "other")).1 =
        (fullPlan okOracle txC7 [44] 0 none (fun _ => "other")).1.take k) :=
  ⟨by decide,
    (C7_order_and_abort okOracle txC7 [44] 0 none (fun _ => "other") (by decide)).2.1⟩

end ErgoLedger

namespace ErgoLedger

/-- C3 (amended): the malformed-input errors of the signing driver — a
missing change path when a change output is detected, and a token reference
not found in the distinct-token-id table — are raised at the point of
detection during the output-streaming step, after device traffic has already
occurred: a run failing with Malformed Input has sent at least the
start-signing, start-transaction and the affected output's start command (at
least three commands), never reaches confirm-and-sign, and sends nothing
after the error is detected (the trace is exactly the plan up to the error). -/
theorem C3_malformed_after_traffic (device : Oracle) (tx : AttestedTx) (signPath : List Nat)
    (network : Network) (authToken : Option Nat) (addrOf : String → String) (m : String)
    (h : (signTxRun device tx signPath network authToken addrOf).2 =
        .error (.malformedInput m)) :
    3 ≤ (signTxRun device tx signPath network authToken addrOf).1.length ∧
    (∀ c ∈ (signTxRun device tx signPath network authToken addrOf).1,
        c.p1 ≠ P1.CONFIRM_AND_SIGN) ∧
    (signTxRun device tx signPath network authToken addrOf).1 =
      (fullPlan device tx signPath network authToken addrOf).1 := by
  rw [signTxRun_char] at h ⊢
  cases hf : firstFail device 0
      (fullPlan device tx signPath network authToken addrOf).1.length with
  | some k =>
    rw [hf] at h
    simp at h
  | none =>
    rw [hf] at h
    dsimp only at h ⊢
    cases h2 : (fullPlan device tx signPath network authToken addrOf).2 with
    | none => rw [h2] at h; simp at h
    | some e =>
      rw [h2] at h
      simp only [Except.error.injEq] at h
      subst h
      have houts : (outputsPlan (sessionIdOf device) tx.changeMap
          (tx.distinctTokenIds.map Deserialize.hex) network addrOf tx.outputs).2 =
          some (.malformedInput m) := by
        rw [fullPlan_snd, bodyPlan_snd] at h2
        cases ho : (outputsPlan (sessionIdOf device) tx.changeMap
            (tx.distinctTokenIds.map Deserialize.hex) network addrOf tx.outputs).2 with
        | none => rw [ho] at h2; simp at h2
        | some e' => rw [ho] at h2; simp only [Option.some_inj] at h2; rw [h2]
      have hfst := bodyPlan_fst_of_some (sessionIdOf device) tx network addrOf
        (.malformedInput m) houts
      have hne := outputsPlan_fst_ne_nil_of_some (sessionIdOf device) tx.changeMap
        (tx.distinctTokenIds.map Deserialize.hex) network addrOf tx.outputs
        (.malformedInput m) houts
      have hpos : 0 < (outputsPlan (sessionIdOf device) tx.changeMap
          (tx.distinctTokenIds.map Deserialize.hex) network addrOf tx.outputs).1.length :=
        List.length_pos.mpr hne
      refine ⟨?_, ?_, rfl⟩
      · rw [fullPlan_fst, hfst]
        simp only [List.length_cons, List.length_append]
        omega
      · intro c hc
        rw [fullPlan_fst] at hc
        rcases List.mem_cons.mp hc with hch | hcb
        · subst hch
          simp [headerCmd, P1.START_SIGNING, P1.CONFIRM_AND_SIGN]
        · rw [hfst] at hcb
          rcases List.mem_cons.mp hcb with hcs | hcr
          · subst hcs
            simp [startTxCmd, P1.START_TRANSACTION, P1.CONFIRM_AND_SIGN]
          · rcases List.mem_append.mp hcr with htok | hrest
            · have := (mem_tokenIdCmds _ _ c htok).2
              simp [this, P1.ADD_TOKEN_IDS, P1.CONFIRM_AND_SIGN]
            · rcases List.mem_append.mp hrest with hinp | hrest2
              · rcases (mem_inputsCmds _ _ c hinp).2 with hp | hp <;>
                  simp [hp, P1.ADD_INPUT_BOX_FRAME, P1.ADD_INPUT_BOX_CONTEXT_EXTENSION_CHUNK,
                    P1.CONFIRM_AND_SIGN]
              · rcases List.mem_append.mp hrest2 with hdat | hout
                · have := (mem_dataInputCmds _ _ c hdat).2
                  simp [this, P1.ADD_DATA_INPUTS, P1.CONFIRM_AND_SIGN]
                · exact (mem_outputsPlan _ _ _ _ _ _ c hout).2.1

/-- The transaction used to refute C3 as stated: a single output whose
derived address matches the change address while the change path is absent. -/
def txC3 : AttestedTx := ⟨[], [], [⟨1, [0], 1, [], []⟩], [], ⟨"chg", none⟩⟩

/-- C3, counterexample: with a change output detected and the change path
missing, the malformed-input error is raised only after three commands
(start-signing, start-transaction and the output's start command) have
already been sent to the device — not before any device traffic as the
claim states. -/
theorem C3_counterexample :
    (signTxRun okOracle txC3 [44] 0 none (fun _ => "chg")).2 =
      .error (.malformedInput "change path is not present") ∧
    (signTxRun okOracle txC3 [44] 0 none (fun _ => "chg")).1.length = 3 := by
  constructor
  · decide
  · decide

/-- C3, witness: the amended statement evaluated on the concrete failing
run. -/
theorem C3_malformed_after_traffic_witness :
    ((signTxRun okOracle txC3 [44] 0 none (fun _ => "chg")).2 =
      .error (.malformedInput "change path is not present")) ∧
    3 ≤ (signTxRun okOracle txC3 [44] 0 none (fun _ => "chg")).1.length :=
  ⟨by decide,
    (C3_malformed_after_traffic okOracle txC3 [44] 0 none (fun _ => "chg")
      "change path is not present" (by decide)).1⟩

end ErgoLedger

namespace ErgoLedger

/-- C4: for every token reference inside any output, the index transmitted
in the add-output-tokens payload equals the position of that token's id in
the session's distinct-token-ids table, each entry being encoded as a 32-bit
index followed by a 64-bit amount; and looking any referenced id up in the
table built from the full output set never yields a not-found result (the
token sub-step never raises the malformed-input error). -/
theorem C4_token_indices (outputs : List BoxCandidate) (box : BoxCandidate)
    (hbox : box ∈ outputs) :
    (∀ tok ∈ box.tokens,
        List.findIdx? (fun s => s = tok.id) (distinctTokenIdsOf outputs) ≠ none) ∧
    (∀ tok ∈ box.tokens,
        (distinctTokenIdsOf outputs).get? (tokenIndexIn (distinctTokenIdsOf outputs) tok) =
          some tok.id) ∧
    (tokensPayload (distinctTokenIdsOf outputs) box.tokens =
      .ok ((box.tokens.map (fun tok =>
        Serialize.uint32 (tokenIndexIn (distinctTokenIdsOf outputs) tok) ++
          Serialize.uint64 tok.amount)).flatten)) ∧
    (∀ sessionId, (outputTokensPlan sessionId (distinctTokenIdsOf outputs) box).2 = none) := by
  have hmem : ∀ tok ∈ box.tokens, tok.id ∈ distinctTokenIdsOf outputs :=
    fun tok htok => tokenId_mem_table outputs box tok hbox htok
  have hpay := tokensPayload_ok (distinctTokenIdsOf outputs) box.tokens hmem
  refine ⟨?_, ?_, hpay, ?_⟩
  · intro tok htok
    obtain ⟨i, hi, _⟩ := findIdx?_of_mem (distinctTokenIdsOf outputs) tok.id (hmem tok htok)
    rw [hi]
    simp
  · intro tok htok
    obtain ⟨i, hi, hg⟩ := findIdx?_of_mem (distinctTokenIdsOf outputs) tok.id (hmem tok htok)
    rw [tokenIndexIn, hi]
    simpa using hg
  · intro sessionId
    rw [outputTokensPlan]
    by_cases ht : 0 < box.tokens.length
    · rw [if_pos ht, hpay]
    · rw [if_neg ht]

/-- The concrete output set used to evaluate C4: the id aa occurs in two
outputs, bb in one. -/
def outsC4 : List BoxCandidate :=
  [⟨1, [2], 1, [⟨"aa", 5⟩], []⟩, ⟨1, [3], 1, [⟨"bb", 6⟩, ⟨"aa", 7⟩], []⟩]

/-- C4, witness: the token payload of the second output of outsC4, whose
entries carry index 1 for bb and index 0 for aa. -/
theorem C4_token_indices_witness :
    (⟨1, [3], 1, [⟨"bb", 6⟩, ⟨"aa", 7⟩], []⟩ : BoxCandidate) ∈ outsC4 ∧
    distinctTokenIdsOf outsC4 = ["aa", "bb"] ∧
    tokensPayload (distinctTokenIdsOf outsC4)
        (⟨1, [3], 1, [⟨"bb", 6⟩, ⟨"aa", 7⟩], []⟩ : BoxCandidate).tokens =
      .ok ((([⟨"bb", 6⟩, ⟨"aa", 7⟩] : List Token).map (fun tok =>
        Serialize.uint32 (tokenIndexIn (distinctTokenIdsOf outsC4) tok) ++
          Serialize.uint64 tok.amount)).flatten) :=
  ⟨by decide, by decide,
    (C4_token_indices outsC4 ⟨1, [3], 1, [⟨"bb", 6⟩, ⟨"aa", 7⟩], []⟩ (by decide)).2.2.1⟩

/-- The transaction used to refute C8: the empty transaction, signed in a
session whose network tag is 0. -/
def txC8 : AttestedTx := ⟨[], [], [], [], ⟨"a", some [44]⟩⟩

/-- C8, counterexample: the first command of a concrete run carries as
payload exactly the serialized signing path — it does not begin with the
session's network tag (here 0), refuting the claim that the start-signing
payload consists of the network tag followed by the signing path. -/
theorem C8_counterexample :
    (signTxRun okOracle txC8 [44, 429] 0 none (fun _ => "x")).1.head? =
      some (headerCmd [44, 429] none) ∧
    (headerCmd [44, 429] none).data = Serialize.bip32Path [44, 429] ∧
    (headerCmd [44, 429] none).data ≠ Serialize.uint8 0 ++ Serialize.bip32Path [44, 429] := by
  refine ⟨?_, ?_, ?_⟩
  · decide
  · decide
  · decide

/-- C8 (amended): the payload of the first command (start-signing) consists
of the serialized signing path and — only when a truthy (non-zero) auth
token is supplied — the 32-bit auth token, with the P2 flag distinguishing
the with-token and without-token cases; the network tag is not part of this
payload. -/
theorem C8_header_payload (device : Oracle) (tx : AttestedTx) (signPath : List Nat)
    (network : Network) (authToken : Option Nat) (addrOf : String → String) :
    ∃ rest, (signTxRun device tx signPath network authToken addrOf).1 =
      { ins := COMMAND_SIGN_TX
        p1 := P1.START_SIGNING
        p2 := if authTruthy authToken then P2.WITH_TOKEN else P2.WITHOUT_TOKEN
        data := Serialize.bip32Path signPath ++
          (match authToken with
           | some a => if a != 0 then Serialize.uint32 a else []
           | none => []) } :: rest := by
  rw [signTxRun_char]
  cases hf : firstFail device 0
      (fullPlan device tx signPath network authToken addrOf).1.length with
  | none =>
    refine ⟨(bodyPlan (sessionIdOf device) tx network addrOf).1, ?_⟩
    simp only [fullPlan_fst]
    rfl
  | some k =>
    refine ⟨(bodyPlan (sessionIdOf device) tx network addrOf).1.take k, ?_⟩
    simp only [fullPlan_fst, List.take_succ_cons]
    rfl

end ErgoLedger
